import Mathlib

/-
Verification development for the `website_crawler` repository.

The Python modules `parser.py`, `sitemap_parser.py`, `form_analyzer.py` and
`config.py` are shallowly embedded below.  Networking is modelled as an
explicit oracle (a function from URL to an optional response), HTML pages are
modelled by the data the code actually inspects (anchors, regex matches on
visible text, forms), and Python strings are modelled as Lean `String`s with
byte-faithful helper functions (`pySplit` models `str.split`, `containsSub`
models the `in` operator, `Char.toLower` models `str.lower` on the ASCII
range that all configuration keywords and the email alphabet use).
-/

set_option maxHeartbeats 1000000
set_option maxRecDepth 8000

namespace WebCrawler

/-! ## String helpers modelling Python string primitives -/

/-- Containment of `sub` in `s` as lists of characters, modelling Python
`sub in s` (empty `sub` is contained in everything). -/
def containsSubList : List Char → List Char → Bool
  | [], sub => sub.isPrefixOf []
  | s@(_ :: t), sub => sub.isPrefixOf s || containsSubList t sub

/-- Containment of substring `sub` in `s`, modelling Python `sub in s`. -/
def containsSub (s sub : String) : Bool :=
  containsSubList s.data sub.data

/-- Python `s.split(sep)` for a one-character separator: splits at every
occurrence, keeping empty pieces, and always returns a non-empty list. -/
def pySplitList (sep : Char) : List Char → List (List Char)
  | [] => [[]]
  | c :: rest =>
    let r := pySplitList sep rest
    if c = sep then [] :: r
    else (c :: r.headD []) :: r.tail

/-- Python `s.split(sep)` on strings. -/
def pySplit (s : String) (sep : Char) : List String :=
  (pySplitList sep s.data).map List.asString

/-- Python `s.lower()` (ASCII range, via `Char.toLower`). -/
def lowerStr (s : String) : String :=
  ⟨s.data.map Char.toLower⟩

/-- Python `s.startswith(p)`. -/
def startsWith (s p : String) : Bool :=
  p.data.isPrefixOf s.data

/-- Python `s.endswith(p)`. -/
def endsWith (s p : String) : Bool :=
  p.data.isSuffixOf s.data

/-- Python `set.add`: sets are modelled as duplicate-free lists in insertion
order, so membership, size and iteration stay executable. -/
def setInsert {α : Type} [DecidableEq α] (l : List α) (a : α) : List α :=
  if a ∈ l then l else l ++ [a]

/-- Python `set.update` / union, folding `setInsert` over the added list. -/
def setUnion {α : Type} [DecidableEq α] (l m : List α) : List α :=
  m.foldl setInsert l

/-! ## config.py -/

namespace Config

/-- Keyword groups from `config.KEYWORD_GROUPS`, in dict insertion order. -/
def KEYWORD_GROUPS : List (String × List String) :=
  [ ("contact", ["contact", "contacts", "kontakt", "kontakty", "связаться", "контакты", "feedback"]),
    ("about", ["about", "o-nas", "о-нас"]),
    ("support", ["support", "help", "podderzhka", "поддержка"]),
    ("mail", ["mail", "email", "pochta", "почта"]),
    ("ads", ["ads", "advertisements", "advertise", "advertising", "реклама", "рекламодателям",
             "partner", "partners", "partnership", "partnerstvo", "партнерство", "collaborate",
             "cooperation"]) ]

/-- Flattened keyword list, `config.ALL_PAGE_KEYWORDS`. -/
def ALL_PAGE_KEYWORDS : List String :=
  (KEYWORD_GROUPS.map Prod.snd).flatten

/-- Fixed common contact-ish paths, `config.COMMON_PATHS`. -/
def COMMON_PATHS : List String :=
  ["/contact", "/contacts", "/about", "/feedback", "/support", "/help", "/ads",
   "/advertisements", "/advertise", "/advertising", "/partners", "/partnership", "/collaborate"]

/-- Keywords matched against a form's combined text/action/class/id,
`config.FORM_KEYWORDS['form_attributes']`. -/
def FORM_ATTRIBUTE_KEYWORDS : List String :=
  ["contact", "feedback", "message", "msg", "mail", "form", "partner", "advertise", "collaboration"]

/-- Name-field keywords, `config.FORM_KEYWORDS['input_fields']['name']`. -/
def INPUT_NAME_KEYWORDS : List String :=
  ["name", "имя", "fname", "lname", "company", "компания", "organization"]

/-- Email-field keywords, `config.FORM_KEYWORDS['input_fields']['email']`. -/
def INPUT_EMAIL_KEYWORDS : List String :=
  ["email", "e-mail", "mail", "почта"]

/-- Message-field keywords, `config.FORM_KEYWORDS['input_fields']['message']`. -/
def INPUT_MESSAGE_KEYWORDS : List String :=
  ["message", "msg", "сообщение", "text", "body", "comment", "proposal", "предложение",
   "description", "описание"]

/-- Surrounding-text phrases, `config.FORM_KEYWORDS['surrounding_text']`. -/
def SURROUNDING_TEXT_KEYWORDS : List String :=
  ["contact us", "send a message", "get in touch", "свяжитесь с нами", "advertise with us",
   "become a partner", "partnership inquiry", "collaboration", "сотрудничество",
   "стать партнером", "рекламодателям"]

/-- Score threshold `ParserConfig.CONTACT_FORM_THRESHOLD`. -/
def CONTACT_FORM_THRESHOLD : Int := 5

/-- Flag `ParserConfig.ENABLE_AI_VERIFICATION`. -/
def ENABLE_AI_VERIFICATION : Bool := true

/-- Verdict-to-delta table `config.LLM_SCORE_MAP`, with the `.get(d, 0)`
default for verdicts outside the table. -/
def LLM_SCORE_MAP (d : Int) : Int :=
  if d = -2 then -5
  else if d = -1 then -2
  else if d = 0 then 0
  else if d = 1 then 2
  else if d = 2 then 5
  else 0

end Config

/-! ## form_analyzer.py -/

namespace FormAnalyzer

/-- One field of a form: the attributes `_is_contact_form` reads from each
element of `form.find_all(['input', 'textarea', 'select'])`, plus the tag
name (`input_field.name` in BeautifulSoup is the tag). -/
structure FormField where
  nameAttr : String
  placeholder : String
  idAttr : String
  typeAttr : String
  tag : String
deriving DecidableEq

/-- An HTML form as `_is_contact_form` observes it: its visible text, the
`action`/`class`/`id` attributes (class already joined by spaces as the code
does) and the field list. -/
structure Form where
  textContent : String
  action : String
  className : String
  idAttr : String
  fields : List FormField
deriving DecidableEq

/-- Combined lowercased field text `f"{field_name} {field_placeholder} {field_id}"`. -/
def fieldText (f : FormField) : String :=
  lowerStr f.nameAttr ++ " " ++ lowerStr f.placeholder ++ " " ++ lowerStr f.idAttr

/-- Combined form context `f"{form_text} {form_action} {form_class} {form_id}"`,
every part lowercased as in the code. -/
def formContext (form : Form) : String :=
  lowerStr form.textContent ++ " " ++ lowerStr form.action ++ " " ++
    lowerStr form.className ++ " " ++ lowerStr form.idAttr

/-- Loop `for keyword in FORM_KEYWORDS['form_attributes']: if keyword in
form_context: score += 2`. -/
def attrScore (ctx : String) : Int :=
  Config.FORM_ATTRIBUTE_KEYWORDS.foldl (fun s k => if containsSub ctx k then s + 2 else s) 0

/-- Loop `for phrase in FORM_KEYWORDS['surrounding_text']: if phrase in
form_context: score += 3`. -/
def surroundScore (ctx : String) : Int :=
  Config.SURROUNDING_TEXT_KEYWORDS.foldl (fun s k => if containsSub ctx k then s + 3 else s) 0

/-- Email-field test: the loop over `FORM_KEYWORDS['input_fields']['email']`
fires on the first keyword contained in the field text, or on
`field_type == 'email'` (checked inside the same loop condition). -/
def emailFieldHit (f : FormField) : Bool :=
  Config.INPUT_EMAIL_KEYWORDS.any
    (fun k => containsSub (fieldText f) k || lowerStr f.typeAttr == "email")

/-- Message-field test: keyword in field text, or the element is a `textarea`. -/
def messageFieldHit (f : FormField) : Bool :=
  Config.INPUT_MESSAGE_KEYWORDS.any
    (fun k => containsSub (fieldText f) k || f.tag == "textarea")

/-- Name-field test: keyword in field text. -/
def nameFieldHit (f : FormField) : Bool :=
  Config.INPUT_NAME_KEYWORDS.any (fun k => containsSub (fieldText f) k)

/-- Hardcoded check `any(keyword in field_text for keyword in ['contact', 'phone', 'subject'])`. -/
def hardcodedHit (f : FormField) : Bool :=
  ["contact", "phone", "subject"].any (fun k => containsSub (fieldText f) k)

/-- Score contributed by one field of the `for input_field in inputs` loop:
+4 for an email field, +3 for a message field, +2 for a name field, +2 for
the hardcoded contact/phone/subject patterns. -/
def fieldDelta (f : FormField) : Int :=
  (if emailFieldHit f then 4 else 0) + (if messageFieldHit f then 3 else 0) +
    (if nameFieldHit f then 2 else 0) + (if hardcodedHit f then 2 else 0)

/-- Running state of the field loop: accumulated score and the three flags. -/
structure FieldAcc where
  score : Int
  hasEmail : Bool
  hasMessage : Bool
  hasName : Bool
deriving DecidableEq

/-- One iteration of the field loop. -/
def processField (acc : FieldAcc) (f : FormField) : FieldAcc :=
  { score := acc.score + fieldDelta f,
    hasEmail := acc.hasEmail || emailFieldHit f,
    hasMessage := acc.hasMessage || messageFieldHit f,
    hasName := acc.hasName || nameFieldHit f }

/-- The whole field loop, started from score 0 and all flags off. -/
def fieldsAcc (fs : List FormField) : FieldAcc :=
  fs.foldl processField ⟨0, false, false, false⟩

/-- Combination bonuses: +3 for email and message together, +2 for email and
name together. -/
def comboBonus (hasEmail hasMessage hasName : Bool) : Int :=
  (if hasEmail && hasMessage then 3 else 0) + (if hasEmail && hasName then 2 else 0)

/-- Heuristic score of `_is_contact_form` before any AI contribution. -/
def heuristicScore (form : Form) : Int :=
  let ctx := formContext form
  let acc := fieldsAcc form.fields
  attrScore ctx + surroundScore ctx + acc.score +
    comboBonus acc.hasEmail acc.hasMessage acc.hasName

/-- Outcome of one OpenAI chat call: either the request raises, or it returns
a content string that `_verify_with_ai` parses. -/
inductive AiOutcome
  | err
  | reply (content : String)
deriving DecidableEq

/-- Model of `re.search(r'-?\d+', s)`: the first maximal digit run, with a
directly preceding minus sign included. -/
def takeDigits : List Char → List Char
  | [] => []
  | c :: cs => if c.isDigit then c :: takeDigits cs else []

/-- Digit run to number, most significant first. -/
def digitsToNat (l : List Char) : Nat :=
  l.foldl (fun a c => a * 10 + (c.toNat - 48)) 0

/-- Scan for the first integer match of `-?\d+`. -/
def findFirstIntAux : List Char → Option Int
  | [] => none
  | c :: cs =>
    if c.isDigit then some (Int.ofNat (digitsToNat (c :: takeDigits cs)))
    else if c = '-' then
      match cs with
      | [] => none
      | d :: _ =>
        if d.isDigit then some (-(Int.ofNat (digitsToNat (takeDigits cs))))
        else findFirstIntAux cs
    else findFirstIntAux cs

/-- First integer in a string, as `int(re.search(r'-?\d+', content).group())`
computes it (`none` when `re.search` returns `None` and `.group()` raises). -/
def findFirstInt (s : String) : Option Int :=
  findFirstIntAux s.data

/-- Model of `_verify_with_ai`: no client or any raised error contributes 0;
a reply is parsed for its first integer and mapped through `LLM_SCORE_MAP`
with default 0; an unparsable reply raises inside the `try` and contributes 0. -/
def verifyWithAi (client : Option AiOutcome) : Int :=
  match client with
  | none => 0
  | some .err => 0
  | some (.reply content) =>
    match findFirstInt content with
    | none => 0
    | some d => Config.LLM_SCORE_MAP d

/-- Guard of the AI branch in `_is_contact_form`: a configured client,
`ENABLE_AI_VERIFICATION`, and a running score in the inclusive range [2, 8]. -/
def aiGuard (client : Option AiOutcome) (score : Int) : Bool :=
  client.isSome && Config.ENABLE_AI_VERIFICATION && (decide (2 ≤ score) && decide (score ≤ 8))

/-- Number of OpenAI calls `_is_contact_form` makes for one form. -/
def aiCallCount (client : Option AiOutcome) (form : Form) : Nat :=
  if aiGuard client (heuristicScore form) then 1 else 0

/-- Final score after the optional AI contribution. -/
def finalScore (client : Option AiOutcome) (form : Form) : Int :=
  let score := heuristicScore form
  if aiGuard client score then score + verifyWithAi client else score

/-- Model of `_is_contact_form`: compare the final score with the threshold. -/
def isContactForm (client : Option AiOutcome) (form : Form) : Bool :=
  decide (finalScore client form ≥ Config.CONTACT_FORM_THRESHOLD)

/-- Model of `analyze_contact_forms`: `True` iff some form on the page
classifies as a contact form (the code stops at the first hit). -/
def analyzeContactForms (client : Option AiOutcome) (forms : List Form) : Bool :=
  forms.any (isContactForm client)

end FormAnalyzer

/-! ## URLs, modelling `urllib.parse`

A URL is carried in parsed form (the six components `urlparse` produces);
`urlString` renders it back as `urlunparse` does, which is what the code's
full-string operations (keyword containment, `endswith`, lowercasing) read. -/

structure Url where
  scheme : String
  netloc : String
  path : String
  params : String
  query : String
  fragment : String
deriving DecidableEq

/-- Rendering of a parsed URL, as `urlunparse` produces for a non-empty
scheme and netloc. -/
def urlString (u : Url) : String :=
  u.scheme ++ "://" ++ u.netloc ++ u.path ++
    (if u.params == "" then "" else ";" ++ u.params) ++
    (if u.query == "" then "" else "?" ++ u.query) ++
    (if u.fragment == "" then "" else "#" ++ u.fragment)

/-- Model of `urljoin(base, path)` for a root-relative path starting with
a slash: the base keeps scheme and host, everything else is replaced. -/
def urljoinPath (base : Url) (path : String) : Url :=
  ⟨base.scheme, base.netloc, path, "", "", ""⟩

/-- Lexicographic comparison of character lists by code point, modelling
Python string comparison for sorting. -/
def lexLeChars : List Char → List Char → Bool
  | [], _ => true
  | _ :: _, [] => false
  | a :: as, b :: bs => if a = b then lexLeChars as bs else decide (a < b)

/-- Ordered insert used by `sortBy`; an element goes after everything it is
greater-or-equal to. -/
def insertSorted {α : Type} (le : α → α → Bool) (a : α) : List α → List α
  | [] => [a]
  | b :: l => if le b a then b :: insertSorted le a l else a :: b :: l

/-- Deterministic comparison sort, modelling Python `sorted` with a key. -/
def sortBy {α : Type} (le : α → α → Bool) (l : List α) : List α :=
  l.foldr (insertSorted le) []

/-- Python `sorted` over URL strings, as `parse` uses on the candidate set. -/
def urlLe (u v : Url) : Bool :=
  lexLeChars (urlString u).data (urlString v).data

/-- Python `sorted` over plain strings. -/
def strLe (a b : String) : Bool :=
  lexLeChars a.data b.data

/-! ## sitemap_parser.py -/

namespace SitemapParser

/-- Sitemap XML as the code reads it: the `<url><loc>` texts and the
`<sitemap><loc>` texts (an element can contribute to both lists, as
`findall('.//url')` and `findall('.//sitemap')` are two separate scans).
Each `loc` text is carried already parsed into URL components. -/
structure SitemapDoc where
  urlEntries : List Url
  sitemapEntries : List Url
deriving DecidableEq

/-- Response to `session.get` of a sitemap URL: HTTP status, byte length of
the body, the parsed XML (`none` models an `ET.ParseError`), and what the
regex fallback `<loc[^>]*>(.*?)</loc>` would extract from the raw bytes. -/
structure SitemapResponse where
  status : Nat
  contentLength : Nat
  xml : Option SitemapDoc
  regexLocs : List Url
deriving DecidableEq

/-- Network oracle for the sitemap parser; `none` models a raised
`requests.RequestException`. -/
abbrev Env := Url → Option SitemapResponse

/-- Limit `self.MAX_SITEMAP_SIZE_MB`. -/
def MAX_SITEMAP_SIZE_MB : Nat := 10

/-- Limit `self.MAX_URLS_PER_SITEMAP`. -/
def MAX_URLS_PER_SITEMAP : Nat := 1000

/-- Limit `self.MAX_SITEMAPS`. -/
def MAX_SITEMAPS : Nat := 5

/-- Python `path.rstrip('/')`. -/
def rstripSlash (l : List Char) : List Char :=
  (l.reverse.dropWhile (fun c => c = '/')).reverse

/-- Model of `SitemapParser._normalize_url`: strip all trailing slashes,
empty path becomes `/`, and params/query/fragment are dropped. -/
def normalizeUrl (u : Url) : Url :=
  let path := rstripSlash u.path.data
  let path := if path.isEmpty then "/" else List.asString path
  ⟨u.scheme, u.netloc, path, "", "", ""⟩

/-- Model of `_is_same_domain`: netloc equality with the base URL. -/
def isSameDomain (baseUrl u : Url) : Bool :=
  u.netloc == baseUrl.netloc

/-- Model of `_find_sitemap_urls`: probe the four conventional paths and
keep those answering with status 200; request errors are swallowed. -/
def findSitemapUrls (env : Env) (baseUrl : Url) : List Url :=
  let potential := [urljoinPath baseUrl "/sitemap.xml", urljoinPath baseUrl "/sitemap_index.xml",
                    urljoinPath baseUrl "/sitemaps.xml", urljoinPath baseUrl "/sitemap/sitemap.xml"]
  potential.foldl (fun acc u =>
    match env u with
    | none => acc
    | some r => if r.status == 200 then setInsert acc u else acc) []

/-- Filtering and inserting one `loc` entry: normalize, keep when
same-domain. -/
def addLocEntry (baseUrl : Url) (acc : List Url) (loc : Url) : List Url :=
  let cleanUrl := normalizeUrl loc
  if isSameDomain baseUrl cleanUrl then setInsert acc cleanUrl else acc

/-- One iteration of the sitemap-index loop of `_extract_urls_from_xml`:
once the loop has broken (flag set) later entries are untouched; otherwise
recurse into the nested sitemap, merge, and break when the accumulated
count has reached `MAX_URLS_PER_SITEMAP`. -/
def sitemapIndexStep (recurse : Url → List Url) (acc : List Url × Bool) (loc : Url) :
    List Url × Bool :=
  if acc.2 then acc
  else
    let urls := setUnion acc.1 (recurse loc)
    (urls, decide (MAX_URLS_PER_SITEMAP ≤ urls.length))

/-- Model of `_extract_urls_from_xml`, parametrised by the recursive call
for nested sitemaps.  On a parse failure the regex fallback fills the set;
otherwise all `<url><loc>` entries are collected (unbounded) and then the
sitemap-index loop runs with its break. -/
def extractUrlsFromXml (recurse : Url → List Url) (baseUrl : Url)
    (response : SitemapResponse) : List Url :=
  match response.xml with
  | some root =>
    let urls := root.urlEntries.foldl (addLocEntry baseUrl) []
    (root.sitemapEntries.foldl (sitemapIndexStep recurse) (urls, false)).1
  | none => response.regexLocs.foldl (addLocEntry baseUrl) []

/-- Model of `_parse_sitemap`: fetch, reject non-200 and oversized bodies,
extract.  The fuel argument bounds the recursion depth of nested sitemap
indexes; fuel 0 models the Python `RecursionError` being caught by the
blanket `except Exception`, which yields an empty set. -/
def parseSitemap (env : Env) (baseUrl : Url) : Nat → Url → List Url
  | 0, _ => []
  | Nat.succ fuel, sitemapUrl =>
    match env sitemapUrl with
    | none => []
    | some response =>
      if response.status != 200 then []
      else if decide (MAX_SITEMAP_SIZE_MB * 1048576 < response.contentLength) then []
      else extractUrlsFromXml (parseSitemap env baseUrl fuel) baseUrl response

/-- One iteration of the top-level loop of `get_links_from_sitemap`,
carrying the accumulated link set, the `processed` counter and the break
flag. -/
def topStep (parseFn : Url → List Url) (acc : List Url × Nat × Bool) (sitemapUrl : Url) :
    List Url × Nat × Bool :=
  if acc.2.2 then acc
  else
    let allLinks := setUnion acc.1 (parseFn sitemapUrl)
    (allLinks, acc.2.1 + 1, decide (MAX_URLS_PER_SITEMAP ≤ allLinks.length))

/-- One URL of the first pass of `_prioritize_urls`: keep it when its
lowercased full string contains a configured keyword. -/
def keywordStep (acc : List Url) (url : Url) : List Url :=
  if Config.ALL_PAGE_KEYWORDS.any (fun k => containsSub (lowerStr (urlString url)) k)
  then setInsert acc url else acc

/-- First pass of `_prioritize_urls`: the keyword-matching URLs. -/
def keywordUrls (urls : List Url) : List Url :=
  urls.foldl keywordStep []

/-- One URL of the backfill loop of `_prioritize_urls`: insert, and break
(set the flag) once 50 URLs are accumulated. -/
def backfillStep (acc : List Url × Bool) (url : Url) : List Url × Bool :=
  if acc.2 then acc
  else
    let acc1 := setInsert acc.1 url
    (acc1, decide (50 ≤ acc1.length))

/-- Model of `_prioritize_urls`: keyword URLs first; when fewer than 20 of
them exist, backfill from the remaining URLs in ascending path length until
50 in total. -/
def prioritizeUrls (urls : List Url) : List Url :=
  if urls.isEmpty then []
  else
    let prioritized := keywordUrls urls
    if decide (20 ≤ prioritized.length) then prioritized
    else
      let remainingUrls := urls.filter (fun u => decide (u ∉ prioritized))
      let sortedRemaining := sortBy (fun a b => decide (a.path.length ≤ b.path.length)) remainingUrls
      (sortedRemaining.foldl backfillStep (prioritized, false)).1

/-- The accumulated state of the top-level loop of `get_links_from_sitemap`
over the (at most 5) discovered sitemap URLs. -/
def topLoopState (env : Env) (fuel : Nat) (baseUrl : Url) : List Url × Nat × Bool :=
  ((findSitemapUrls env baseUrl).take MAX_SITEMAPS).foldl
    (topStep (parseSitemap env baseUrl fuel)) ([], 0, false)

/-- Model of `get_links_from_sitemap`: empty when no sitemap is found, else
run the bounded top-level loop and prioritize the result. -/
def getLinksFromSitemap (env : Env) (fuel : Nat) (baseUrl : Url) : List Url :=
  let sitemapUrls := findSitemapUrls env baseUrl
  if sitemapUrls.isEmpty then []
  else prioritizeUrls (topLoopState env fuel baseUrl).1

/-- Number of sitemaps the top-level loop processed (`processed` counter). -/
def processedSitemaps (env : Env) (fuel : Nat) (baseUrl : Url) : Nat :=
  if (findSitemapUrls env baseUrl).isEmpty then 0
  else (topLoopState env fuel baseUrl).2.1

end SitemapParser

/-! ## parser.py -/

namespace AdvancedParser

/-- An anchor element with an `href`: the raw `href` text (for the
`mailto:` scan), the absolute URL `urljoin(base_url, href)` resolves to
(carried as page data, since resolution happens against the fixed base of
the visited site), and the anchor's stripped visible text. -/
structure Anchor where
  href : String
  resolved : Url
  text : String
deriving DecidableEq

/-- A fetched page as the parser observes it: its anchors, the matches of
the email regex `[a-zA-Z0-9._%+-]+@[a-zA-Z0-9.-]+\.[a-zA-Z]{2,}` over the
page's visible text, and its forms. -/
structure PageData where
  anchors : List Anchor
  textMatches : List String
  forms : List FormAnalyzer.Form
deriving DecidableEq

/-- An HTTP response: status code and page content. -/
structure HttpResponse where
  status : Nat
  page : PageData
deriving DecidableEq

/-- Network oracle for `session.get`; `none` models a raised
`requests.RequestException` (connection failure, timeout, or the retry
adapter exhausting its attempts on 429/500/502/503/504). -/
abbrev Env := Url → Option HttpResponse

/-- Model of `Response.raise_for_status`, which raises exactly on 4xx/5xx. -/
def raisesForStatus (status : Nat) : Bool :=
  decide (400 ≤ status)

/-- Model of `_make_request`.  Any exception — including the one
`raise_for_status` raises when `ignore_errors` is false — is caught by the
surrounding `except` clause, which returns `None`; nothing propagates. -/
def makeRequest (env : Env) (url : Url) (ignoreErrors : Bool) : Option HttpResponse :=
  match env url with
  | none => none
  | some response =>
    if !ignoreErrors && raisesForStatus response.status then none else some response

/-- Model of `AdvancedParser._normalize_url`: drop one trailing slash when
the path is longer than one character; all other components are kept. -/
def normalizeUrl (u : Url) : Url :=
  if endsWith u.path "/" && decide (1 < u.path.length)
  then { u with path := ⟨u.path.data.dropLast⟩ } else u

/-- Excluded file extensions of `_is_valid_url`. -/
def EXCLUDED_EXTENSIONS : List String :=
  [".png", ".jpg", ".jpeg", ".gif", ".pdf", ".zip", ".doc", ".docx"]

/-- Model of `_is_valid_url`: same-domain suffix test on the netloc,
http/https scheme, and no excluded download extension. -/
def isValidUrl (domainName : String) (url : Url) : Bool :=
  endsWith url.netloc domainName &&
    (url.scheme == "http" || url.scheme == "https") &&
    !(EXCLUDED_EXTENSIONS.any (fun ext => endsWith (lowerStr (urlString url)) ext))

/-- Model of `_get_url_keyword_group`: match the lowercased final path
segment against each group's keyword list in dict order, then the
special-cased substrings of the full URL string. -/
def getUrlKeywordGroup (url : Url) : Option String :=
  let pathSegment := List.asString (((pySplitList '/' (lowerStr url.path).data).getLast?).getD [])
  match Config.KEYWORD_GROUPS.find? (fun g => g.2.any (fun keyword => keyword == pathSegment)) with
  | some g => some g.1
  | none =>
    if containsSub (urlString url) "contact-us" then some "contact"
    else if containsSub (urlString url) "about-us" then some "about"
    else none

/-- Model of `_should_skip_group`. -/
def shouldSkipGroup (successfulGroups : List String) (urlGroup : Option String) : Bool :=
  match urlGroup with
  | none => false
  | some g => decide (g ∈ successfulGroups)

/-- Model of `_mark_group_as_successful`. -/
def markGroupAsSuccessful (successfulGroups : List String) (urlGroup : Option String) :
    List String :=
  match urlGroup with
  | none => successfulGroups
  | some g => setInsert successfulGroups g

/-- False-positive substrings of `_is_valid_email`. -/
def FALSE_POSITIVES : List String :=
  [".png", ".jpg", ".jpeg", ".gif", ".css", ".js", "example.com", "test@", "@example", "noreply@"]

/-- Model of `_is_valid_email`: an `@` must be present with a `.` somewhere
after it (in the piece between the first and second `@`), and the lowercased
address must contain no false-positive substring. -/
def isValidEmail (email : String) : Bool :=
  if !(containsSub email "@") || !(containsSub ((pySplit email '@').getD 1 "") ".") then false
  else !(FALSE_POSITIVES.any (fun fp => containsSub (lowerStr email) fp))

/-- Address a `mailto:` href yields: the piece between the first and second
colon, truncated at the first `?`. -/
def mailtoCandidate (href : String) : String :=
  (pySplit ((pySplit href ':').getD 1 "") '?').getD 0 ""

/-- One anchor of the `mailto:` loop of `_find_emails`: a non-empty valid
address from a `mailto:` href is lowercased and inserted. -/
def mailtoStep (acc : List String) (a : Anchor) : List String :=
  if startsWith a.href "mailto:" then
    let email := mailtoCandidate a.href
    if email != "" && isValidEmail email then setInsert acc (lowerStr email) else acc
  else acc

/-- One regex match of the text loop of `_find_emails`: a valid match is
lowercased and inserted. -/
def textMatchStep (acc : List String) (email : String) : List String :=
  if isValidEmail email then setInsert acc (lowerStr email) else acc

/-- Model of the body of `_find_emails`: first the `mailto:` scan over all
anchors, then the regex matches over the page text; every accepted address
is lowercased before insertion. -/
def findEmailsList (page : PageData) (emails : List String) : List String :=
  page.textMatches.foldl textMatchStep (page.anchors.foldl mailtoStep emails)

/-- Model of `_collect_priority_urls`: the base URL is always present; when
the homepage loads, keyword-matching same-domain homepage links, sitemap
links (unless skipped) and the common paths are added; when it does not,
the function returns early with only the base URL. -/
def collectPriorityUrls (env : Env) (senv : SitemapParser.Env) (fuel : Nat)
    (skipSitemap : Bool) (baseUrl : Url) (domainName : String) : List Url :=
  let priorityUrls := [baseUrl]
  match makeRequest env baseUrl false with
  | none => priorityUrls
  | some mainPageResponse =>
    let priorityUrls := mainPageResponse.page.anchors.foldl (fun acc link =>
      if !(isValidUrl domainName link.resolved) then acc
      else
        let linkText := lowerStr link.text
        let linkUrl := lowerStr (urlString link.resolved)
        if Config.ALL_PAGE_KEYWORDS.any
            (fun keyword => containsSub linkUrl keyword || containsSub linkText keyword)
        then setInsert acc (normalizeUrl link.resolved) else acc) priorityUrls
    let priorityUrls :=
      if !skipSitemap
      then setUnion priorityUrls (SitemapParser.getLinksFromSitemap senv fuel baseUrl)
      else priorityUrls
    Config.COMMON_PATHS.foldl (fun acc path =>
      setInsert acc (normalizeUrl (urljoinPath baseUrl path))) priorityUrls

/-- Running state of one parse: result sets, the successful keyword groups,
and (instrumentation for the temporal claims) the list of URLs for which
`_process_url` issued a network request, in order. -/
structure RunState where
  emails : List String
  contactFormPages : List Url
  successfulGroups : List String
  fetched : List Url
deriving DecidableEq

/-- Fresh state at parse start. -/
def initState : RunState := ⟨[], [], [], []⟩

/-- Model of `_process_url`: group-skip check first (before any request),
then the fetch with errors ignored, then email and form extraction, and
finally the group is marked successful when something was found. -/
def processUrl (env : Env) (client : Option FormAnalyzer.AiOutcome) (st : RunState)
    (url : Url) : RunState :=
  let urlGroup := getUrlKeywordGroup url
  if shouldSkipGroup st.successfulGroups urlGroup then st
  else
    let st1 := { st with fetched := st.fetched ++ [url] }
    match makeRequest env url true with
    | none => st1
    | some response =>
      if response.status != 200 then st1
      else
        let emailsAfter := findEmailsList response.page st1.emails
        let foundEmails := decide (st1.emails.length < emailsAfter.length)
        let foundForms := FormAnalyzer.analyzeContactForms client response.page.forms
        let contactPages :=
          if foundForms then setInsert st1.contactFormPages (normalizeUrl url)
          else st1.contactFormPages
        let groups :=
          if (foundEmails || foundForms) && urlGroup.isSome
          then markGroupAsSuccessful st1.successfulGroups urlGroup
          else st1.successfulGroups
        { emails := emailsAfter, contactFormPages := contactPages,
          successfulGroups := groups, fetched := st1.fetched }

/-- The visit loop of `parse` over the sorted candidate list. -/
def visitUrls (env : Env) (client : Option FormAnalyzer.AiOutcome) (st : RunState)
    (urls : List Url) : RunState :=
  urls.foldl (processUrl env client) st

/-- Final state of a whole `parse` run from a raw input URL. -/
def parseRun (env : Env) (senv : SitemapParser.Env) (fuel : Nat)
    (client : Option FormAnalyzer.AiOutcome) (skipSitemap : Bool) (rawBase : Url) : RunState :=
  let baseUrl := normalizeUrl rawBase
  let priorityUrls := collectPriorityUrls env senv fuel skipSitemap baseUrl baseUrl.netloc
  visitUrls env client initState (sortBy urlLe priorityUrls)

/-- Model of `parse`: `none` when the candidate set is empty, otherwise the
sorted email list and sorted contact-form-page list after visiting every
candidate. -/
def parse (env : Env) (senv : SitemapParser.Env) (fuel : Nat)
    (client : Option FormAnalyzer.AiOutcome) (skipSitemap : Bool) (rawBase : Url) :
    Option (List String × List Url) :=
  let baseUrl := normalizeUrl rawBase
  let priorityUrls := collectPriorityUrls env senv fuel skipSitemap baseUrl baseUrl.netloc
  if priorityUrls.isEmpty then none
  else
    let finalState := visitUrls env client initState (sortBy urlLe priorityUrls)
    some (sortBy strLe finalState.emails, sortBy urlLe finalState.contactFormPages)

end AdvancedParser

/-! ## Concrete inputs used by counterexamples and witnesses -/

namespace Examples

/-- An empty page. -/
def emptyPage : AdvancedParser.PageData := ⟨[], [], []⟩

/-- Base URL of the concrete scenarios. -/
def exBase : Url := ⟨"https", "example.org", "", "", "", ""⟩

/-- Oracle where every request raises, as a homepage returning 500 does
once the retry adapter has exhausted its attempts. -/
def envFail : AdvancedParser.Env := fun _ => none

/-- Sitemap oracle where every request raises. -/
def senvFail : SitemapParser.Env := fun _ => none

/-- Oracle serving an empty page with status 200 everywhere. -/
def envOk : AdvancedParser.Env := fun _ => some ⟨200, emptyPage⟩

/-- Oracle serving status 404 with an empty page everywhere. -/
def env404 : AdvancedParser.Env := fun _ => some ⟨404, emptyPage⟩

/-- Minimal form with an email input and a textarea, nothing else. -/
def emailTextareaForm : FormAnalyzer.Form :=
  { textContent := "", action := "", className := "", idAttr := "",
    fields := [ { nameAttr := "", placeholder := "", idAttr := "", typeAttr := "email",
                  tag := "input" },
                { nameAttr := "", placeholder := "", idAttr := "", typeAttr := "",
                  tag := "textarea" } ] }

/-- Form with only a textarea (a message field), for the monotonicity
witness. -/
def textareaOnlyForm : FormAnalyzer.Form :=
  { textContent := "", action := "", className := "", idAttr := "",
    fields := [ { nameAttr := "", placeholder := "", idAttr := "", typeAttr := "",
                  tag := "textarea" } ] }

/-- A bare email input field. -/
def emailInputField : FormAnalyzer.FormField :=
  { nameAttr := "", placeholder := "", idAttr := "", typeAttr := "email", tag := "input" }

/-- Family of distinct same-domain keyword URLs: path lengths all differ,
so the family is injective, and the trailing `x` keeps paths free of
trailing slashes. -/
def contactUrl (i : Nat) : Url :=
  ⟨"https", "example.org", "/contact" ++ List.asString (List.replicate i 'a') ++ "x",
   "", "", ""⟩

/-- 1001 distinct keyword URLs for the sitemap-bound counterexample. -/
def manyUrls : List Url := (List.range 1001).map contactUrl

/-- 51 distinct keyword URLs for the prioritization counterexample. -/
def fiftyOneUrls : List Url := (List.range 51).map contactUrl

/-- The sitemap URL the conventional-path probe finds. -/
def exSitemapUrl : Url := urljoinPath exBase "/sitemap.xml"

/-- Sitemap oracle serving one urlset with 1001 entries at `/sitemap.xml`
and raising everywhere else. -/
def senvBig : SitemapParser.Env := fun u =>
  if u = exSitemapUrl then some ⟨200, 0, some ⟨manyUrls, []⟩, []⟩ else none

/-- Page whose `mailto:` anchor yields one email. -/
def contactPage : AdvancedParser.PageData :=
  { anchors := [⟨"mailto:Info@Foo.com?x=1", exBase, "write to us"⟩],
    textMatches := [], forms := [] }

/-- URL in keyword group `contact`. -/
def urlContact : Url := ⟨"https", "example.org", "/contact", "", "", ""⟩

/-- Second URL in keyword group `contact`. -/
def urlContacts : Url := ⟨"https", "example.org", "/contacts", "", "", ""⟩

/-- Oracle serving the mailto page with status 200 everywhere. -/
def envContact : AdvancedParser.Env := fun _ => some ⟨200, contactPage⟩

end Examples

/-! ### Basic lemmas about the helpers -/

theorem toNat_ofNat_valid (n : Nat) (h : n.isValidChar) : (Char.ofNat n).toNat = n := by
  rw [Char.ofNat, dif_pos h]
  rfl

theorem toLower_idem (c : Char) : c.toLower.toLower = c.toLower := by
  unfold Char.toLower
  by_cases h : c.toNat ≥ 65 ∧ c.toNat ≤ 90
  · rw [if_pos h]
    have hv : (c.toNat + 32).isValidChar := Or.inl (by omega)
    have := toNat_ofNat_valid (c.toNat + 32) hv
    rw [if_neg (by omega)]
  · rw [if_neg h, if_neg h]

theorem map_toLower_idem (l : List Char) :
    (l.map Char.toLower).map Char.toLower = l.map Char.toLower := by
  induction l with
  | nil => rfl
  | cons c t ih => simp [ih, toLower_idem]

theorem lowerStr_idem (s : String) : lowerStr (lowerStr s) = lowerStr s := by
  unfold lowerStr
  simp only [map_toLower_idem]

/-- Characters outside both ASCII letter ranges are fixed points of
case-folding comparisons: `c.toLower = sep ↔ c = sep`. -/
theorem toLower_eq_iff (c sep : Char) (h1 : ¬(65 ≤ sep.toNat ∧ sep.toNat ≤ 90))
    (h2 : ¬(97 ≤ sep.toNat ∧ sep.toNat ≤ 122)) : c.toLower = sep ↔ c = sep := by
  unfold Char.toLower
  by_cases h : c.toNat ≥ 65 ∧ c.toNat ≤ 90
  · rw [if_pos h]
    have hv : (c.toNat + 32).isValidChar := Or.inl (by omega)
    have ht := toNat_ofNat_valid (c.toNat + 32) hv
    constructor
    · intro he
      exfalso
      apply h2
      rw [← he, ht]
      omega
    · intro he
      exfalso
      apply h1
      rw [← he]
      exact h
  · rw [if_neg h]

theorem containsSubList_spec (s sub : List Char) :
    containsSubList s sub = true ↔ sub <:+: s := by
  induction s with
  | nil =>
    simp [containsSubList, List.isPrefixOf_iff_prefix]
  | cons c t ih =>
    simp [containsSubList, List.isPrefixOf_iff_prefix, ih, List.infix_cons_iff]

theorem containsSub_single_iff_mem (s : String) (c : Char) :
    containsSub s ⟨[c]⟩ = true ↔ c ∈ s.data := by
  rw [containsSub, containsSubList_spec]
  constructor
  · intro h
    exact h.mem (by simp)
  · intro h
    obtain ⟨l1, l2, hs⟩ := List.append_of_mem h
    exact ⟨l1, l2, by rw [hs]; simp⟩

theorem containsSubList_map_of_containsSubList (f : Char → Char) (s sub : List Char)
    (h : containsSubList s sub = true) :
    containsSubList (s.map f) (sub.map f) = true := by
  rw [containsSubList_spec] at h ⊢
  exact h.map f

theorem pySplitList_ne_nil (sep : Char) (l : List Char) : pySplitList sep l ≠ [] := by
  cases l with
  | nil => simp [pySplitList]
  | cons c rest =>
    simp only [pySplitList]
    split <;> simp

/-- Case-folding commutes with splitting when the separator is no ASCII
letter: `lower(s).split(sep) = map lower (s.split(sep))`. -/
theorem pySplitList_map_toLower (sep : Char) (h1 : ¬(65 ≤ sep.toNat ∧ sep.toNat ≤ 90))
    (h2 : ¬(97 ≤ sep.toNat ∧ sep.toNat ≤ 122)) (l : List Char) :
    pySplitList sep (l.map Char.toLower) = (pySplitList sep l).map (List.map Char.toLower) := by
  induction l with
  | nil => simp [pySplitList]
  | cons c rest ih =>
    simp only [List.map_cons, pySplitList, ih]
    by_cases hc : c = sep
    · rw [if_pos (by rw [hc]; exact (toLower_eq_iff sep sep h1 h2).mpr rfl), if_pos hc]
      rfl
    · rw [if_neg (fun he => hc ((toLower_eq_iff c sep h1 h2).mp he)), if_neg hc]
      rcases hr : pySplitList sep rest with _ | ⟨x, xs⟩
      · exact absurd hr (pySplitList_ne_nil sep rest)
      · simp

theorem mem_of_setInsert {α : Type} [DecidableEq α] (l : List α) (a x : α)
    (h : x ∈ setInsert l a) : x ∈ l ∨ x = a := by
  unfold setInsert at h
  split at h
  · exact Or.inl h
  · rcases List.mem_append.mp h with h' | h'
    · exact Or.inl h'
    · exact Or.inr (List.mem_singleton.mp h')


/-! ### Lemmas about case folding, splitting and the email validator -/

theorem containsSub_at (s : String) : containsSub s "@" = true ↔ '@' ∈ s.data :=
  containsSub_single_iff_mem s '@'

theorem containsSub_dot (s : String) : containsSub s "." = true ↔ '.' ∈ s.data :=
  containsSub_single_iff_mem s '.'

theorem mem_map_toLower_iff (l : List Char) (sep : Char)
    (h1 : ¬(65 ≤ sep.toNat ∧ sep.toNat ≤ 90)) (h2 : ¬(97 ≤ sep.toNat ∧ sep.toNat ≤ 122)) :
    sep ∈ l.map Char.toLower ↔ sep ∈ l := by
  simp only [List.mem_map]
  constructor
  · rintro ⟨c, hc, he⟩
    rwa [(toLower_eq_iff c sep h1 h2).mp he] at hc
  · intro h
    exact ⟨sep, h, (toLower_eq_iff sep sep h1 h2).mpr rfl⟩

theorem pySplitList_length (sep : Char) (l : List Char) :
    (pySplitList sep l).length = l.count sep + 1 := by
  induction l with
  | nil => simp [pySplitList]
  | cons c t ih =>
    simp only [pySplitList]
    by_cases hc : c = sep
    · rw [if_pos hc]
      simp [List.count_cons, hc, ih]
    · rw [if_neg hc]
      rcases hr : pySplitList sep t with _ | ⟨x, xs⟩
      · exact absurd hr (pySplitList_ne_nil sep t)
      · rw [hr] at ih
        simp only [List.length_cons, List.tail_cons, List.count_cons]
        have : (c == sep) = false := by simp [hc]
        rw [this]
        simp at ih ⊢
        omega

theorem isValidEmail_iff (email : String) :
    AdvancedParser.isValidEmail email = true ↔
      containsSub email "@" = true ∧
      containsSub ((pySplit email '@').getD 1 "") "." = true ∧
      ∀ fp ∈ AdvancedParser.FALSE_POSITIVES, containsSub (lowerStr email) fp = false := by
  unfold AdvancedParser.isValidEmail
  by_cases hA : containsSub email "@" = true
  · by_cases hB : containsSub ((pySplit email '@').getD 1 "") "." = true
    · simp only [hA, hB, Bool.not_true, Bool.or_self, Bool.false_eq_true, if_false,
        Bool.not_eq_true']
      rw [List.any_eq_false]
      simp [hA, hB]
    · simp [hA, hB]
  · simp [hA]

theorem isValidEmail_lowerStr (email : String) (h : AdvancedParser.isValidEmail email = true) :
    AdvancedParser.isValidEmail (lowerStr email) = true := by
  rw [isValidEmail_iff] at h ⊢
  obtain ⟨hA, hB, hC⟩ := h
  have hdata : (lowerStr email).data = email.data.map Char.toLower := rfl
  refine ⟨?_, ?_, ?_⟩
  · rw [containsSub_at, hdata]
    exact (mem_map_toLower_iff email.data '@' (by decide) (by decide)).mpr
      ((containsSub_at email).mp hA)
  · have hmem : '@' ∈ email.data := (containsSub_at email).mp hA
    have hlen : 2 ≤ (pySplitList '@' email.data).length := by
      rw [pySplitList_length]
      have := List.count_pos_iff.mpr hmem
      omega
    rcases hp : pySplitList '@' email.data with _ | ⟨p0, ps⟩
    · rw [hp] at hlen; simp at hlen
    rcases ps with _ | ⟨p1, rest⟩
    · rw [hp] at hlen; simp at hlen
    have hsplit := pySplitList_map_toLower '@' (by decide) (by decide) email.data
    rw [hp] at hsplit
    have hlow : (pySplit (lowerStr email) '@').getD 1 "" = List.asString (p1.map Char.toLower) := by
      simp [pySplit, hdata, hsplit]
    have hold : (pySplit email '@').getD 1 "" = List.asString p1 := by
      simp [pySplit, hp]
    rw [hold] at hB
    rw [hlow, containsSub_dot]
    have hdot : '.' ∈ p1 := (containsSub_dot (List.asString p1)).mp hB
    exact (mem_map_toLower_iff p1 '.' (by decide) (by decide)).mpr hdot
  · intro fp hfp
    rw [lowerStr_idem]
    exact hC fp hfp

/-! ### Lemmas about the sitemap parser and its bounds -/

theorem setInsert_length_le {α : Type} [DecidableEq α] (l : List α) (a : α) :
    (setInsert l a).length ≤ l.length + 1 := by
  unfold setInsert
  split <;> simp

theorem mem_setInsert_of_mem {α : Type} [DecidableEq α] (l : List α) (a x : α)
    (h : x ∈ l) : x ∈ setInsert l a := by
  unfold setInsert
  split
  · exact h
  · exact List.mem_append_left _ h

theorem setInsert_eq_append {α : Type} [DecidableEq α] (l : List α) (a : α) (h : a ∉ l) :
    setInsert l a = l ++ [a] := by
  simp [setInsert, h]

theorem setUnion_eq_append {α : Type} [DecidableEq α] :
    ∀ (m l : List α), (∀ x ∈ m, x ∉ l) → m.Nodup → setUnion l m = l ++ m := by
  intro m
  induction m with
  | nil =>
    intro l _ _
    simp [setUnion]
  | cons a t ih =>
    intro l hdisj hnd
    have ha : a ∉ l := hdisj a (List.mem_cons_self a t)
    simp only [setUnion, List.foldl_cons] at ih ⊢
    rw [setInsert_eq_append l a ha, ih (l ++ [a]) ?_ (List.nodup_cons.mp hnd).2]
    · simp
    · intro x hx
      simp only [List.mem_append, List.mem_singleton]
      push_neg
      exact ⟨hdisj x (List.mem_cons_of_mem a hx), fun he =>
        (List.nodup_cons.mp hnd).1 (he ▸ hx)⟩

namespace SitemapParser

theorem foldl_topStep_flagged (parseFn : Url → List Url) :
    ∀ (l : List Url) (acc : List Url × Nat × Bool), acc.2.2 = true →
      l.foldl (topStep parseFn) acc = acc := by
  intro l
  induction l with
  | nil =>
    intro acc _
    rfl
  | cons u t ih =>
    intro acc hflag
    simp only [List.foldl_cons, topStep, hflag, if_true]
    exact ih acc hflag

theorem foldl_backfillStep_flagged :
    ∀ (l : List Url) (acc : List Url × Bool), acc.2 = true →
      l.foldl backfillStep acc = acc := by
  intro l
  induction l with
  | nil =>
    intro acc _
    rfl
  | cons u t ih =>
    intro acc hflag
    simp only [List.foldl_cons, backfillStep, hflag, if_true]
    exact ih acc hflag

theorem foldl_sitemapIndexStep_flagged (recurse : Url → List Url) :
    ∀ (l : List Url) (acc : List Url × Bool), acc.2 = true →
      l.foldl (sitemapIndexStep recurse) acc = acc := by
  intro l
  induction l with
  | nil =>
    intro acc _
    rfl
  | cons u t ih =>
    intro acc hflag
    simp only [List.foldl_cons, sitemapIndexStep, hflag, if_true]
    exact ih acc hflag

theorem foldl_topStep_count (parseFn : Url → List Url) :
    ∀ (l : List Url) (acc : List Url × Nat × Bool),
      (l.foldl (topStep parseFn) acc).2.1 ≤ acc.2.1 + l.length := by
  intro l
  induction l with
  | nil =>
    intro acc
    simp
  | cons u t ih =>
    intro acc
    simp only [List.foldl_cons, List.length_cons]
    by_cases hflag : acc.2.2 = true
    · simp only [topStep, hflag, if_true]
      have := ih acc
      omega
    · simp only [topStep, Bool.not_eq_true] at hflag
      simp only [topStep, hflag, Bool.false_eq_true, if_false]
      have := ih (setUnion acc.1 (parseFn u), acc.2.1 + 1,
        decide (MAX_URLS_PER_SITEMAP ≤ (setUnion acc.1 (parseFn u)).length))
      simp at this ⊢
      omega

theorem foldl_addLocEntry_eq_append (b : Url) :
    ∀ (entries acc : List Url),
      (∀ e ∈ entries, normalizeUrl e = e ∧ isSameDomain b e = true ∧ e ∉ acc) →
      entries.Nodup → entries.foldl (addLocEntry b) acc = acc ++ entries := by
  intro entries
  induction entries with
  | nil =>
    intro acc _ _
    simp
  | cons e t ih =>
    intro acc hcond hnd
    obtain ⟨hne, hsd, hnm⟩ := hcond e (List.mem_cons_self e t)
    simp only [List.foldl_cons, addLocEntry, hne, hsd, if_true]
    rw [setInsert_eq_append acc e hnm,
      ih (acc ++ [e]) ?_ (List.nodup_cons.mp hnd).2]
    · simp
    · intro x hx
      obtain ⟨h1, h2, h3⟩ := hcond x (List.mem_cons_of_mem e hx)
      refine ⟨h1, h2, ?_⟩
      simp only [List.mem_append, List.mem_singleton]
      push_neg
      exact ⟨h3, fun he => (List.nodup_cons.mp hnd).1 (he ▸ hx)⟩

theorem foldl_keywordStep_eq_append :
    ∀ (urls acc : List Url),
      (∀ u ∈ urls,
        Config.ALL_PAGE_KEYWORDS.any (fun k => containsSub (lowerStr (urlString u)) k) = true ∧
        u ∉ acc) →
      urls.Nodup → urls.foldl keywordStep acc = acc ++ urls := by
  intro urls
  induction urls with
  | nil =>
    intro acc _ _
    simp
  | cons u t ih =>
    intro acc hcond hnd
    obtain ⟨hkw, hnm⟩ := hcond u (List.mem_cons_self u t)
    simp only [List.foldl_cons, keywordStep, hkw, if_true]
    rw [setInsert_eq_append acc u hnm,
      ih (acc ++ [u]) ?_ (List.nodup_cons.mp hnd).2]
    · simp
    · intro x hx
      obtain ⟨h1, h3⟩ := hcond x (List.mem_cons_of_mem u hx)
      refine ⟨h1, ?_⟩
      simp only [List.mem_append, List.mem_singleton]
      push_neg
      exact ⟨h3, fun he => (List.nodup_cons.mp hnd).1 (he ▸ hx)⟩

theorem foldl_backfillStep_length :
    ∀ (l : List Url) (acc : List Url × Bool),
      (acc.2 = true → acc.1.length ≤ 50) → (acc.2 = false → acc.1.length < 50) →
      (l.foldl backfillStep acc).1.length ≤ 50 := by
  intro l
  induction l with
  | nil =>
    intro acc h1 h2
    cases hf : acc.2 with
    | true => exact h1 hf
    | false => exact Nat.le_of_lt (h2 hf)
  | cons u t ih =>
    intro acc h1 h2
    simp only [List.foldl_cons]
    by_cases hf : acc.2 = true
    · simp only [backfillStep, hf, if_true]
      exact ih acc h1 h2
    · simp only [Bool.not_eq_true] at hf
      simp only [backfillStep, hf, Bool.false_eq_true, if_false]
      have hlt := h2 hf
      have hlen := setInsert_length_le acc.1 u
      refine ih _ ?_ ?_
      · intro _
        dsimp only
        omega
      · intro hflag
        dsimp only at hflag ⊢
        simp only [decide_eq_false_iff_not] at hflag
        omega

theorem keywordUrls_nil : keywordUrls [] = [] := rfl

theorem prioritizeUrls_keyword_branch (urls : List Url)
    (h20 : 20 ≤ (keywordUrls urls).length) :
    prioritizeUrls urls = keywordUrls urls := by
  have hne : urls.isEmpty = false := by
    cases hu : urls with
    | nil =>
      rw [hu, keywordUrls_nil] at h20
      simp only [List.length_nil] at h20
      omega
    | cons a t => rfl
  simp only [prioritizeUrls, hne, Bool.false_eq_true, if_false, decide_eq_true h20]
  simp

theorem foldl_backfillStep_mem (x : Url) :
    ∀ (l : List Url) (acc : List Url × Bool), x ∈ acc.1 →
      x ∈ (l.foldl backfillStep acc).1 := by
  intro l
  induction l with
  | nil =>
    intro acc h
    exact h
  | cons u t ih =>
    intro acc h
    simp only [List.foldl_cons]
    by_cases hf : acc.2 = true
    · simp only [backfillStep, hf, if_true]
      exact ih acc h
    · simp only [Bool.not_eq_true] at hf
      simp only [backfillStep, hf, Bool.false_eq_true, if_false]
      exact ih _ (mem_setInsert_of_mem _ _ _ h)

end SitemapParser

/-! ### The concrete URL family of the sitemap counterexamples -/

namespace Examples

theorem rstripSlash_append (l : List Char) (c : Char) (hc : ¬(c = '/')) :
    SitemapParser.rstripSlash (l ++ [c]) = l ++ [c] := by
  simp [SitemapParser.rstripSlash, List.reverse_append, List.dropWhile_cons, hc]

theorem data_asString (l : List Char) : (List.asString l).data = l :=
  List.toList_asString l

theorem contactUrl_path_data (i : Nat) :
    (contactUrl i).path.data = ("/contact".data ++ List.replicate i 'a') ++ ['x'] := by
  simp [contactUrl, data_asString]

theorem contactUrl_normalize (i : Nat) :
    SitemapParser.normalizeUrl (contactUrl i) = contactUrl i := by
  simp only [SitemapParser.normalizeUrl, contactUrl_path_data,
    rstripSlash_append _ 'x' (by decide)]
  rw [show ((("/contact".data ++ List.replicate i 'a') ++ ['x']).isEmpty) = false from by simp]
  simp only [Bool.false_eq_true, if_false]
  rw [← contactUrl_path_data i]
  have hback : List.asString (contactUrl i).path.data = (contactUrl i).path :=
    String.asString_toList _
  rw [hback]
  rfl

theorem contactUrl_sameDomain (i : Nat) :
    SitemapParser.isSameDomain exBase (contactUrl i) = true := rfl

theorem contactUrl_inj : Function.Injective contactUrl := by
  intro i j h
  have hlen := congrArg (fun u => u.path.data.length) h
  simp only [contactUrl_path_data, List.length_append, List.length_replicate] at hlen
  omega

theorem contactUrl_urlString_data (i : Nat) :
    (urlString (contactUrl i)).data =
      "https://example.org/contact".data ++ (List.replicate i 'a' ++ ['x']) := by
  have : urlString (contactUrl i) =
      "https" ++ "://" ++ "example.org" ++ (contactUrl i).path := by
    simp [urlString, contactUrl]
  rw [this]
  simp only [String.data_append, contactUrl_path_data]
  simp [List.append_assoc]

theorem infix_append_extend {α : Type} (sub A B : List α) (h : sub <:+: A) :
    sub <:+: A ++ B := by
  obtain ⟨s, t, rfl⟩ := h
  exact ⟨s, t ++ B, by simp⟩

theorem contactUrl_keyword (i : Nat) :
    Config.ALL_PAGE_KEYWORDS.any
      (fun k => containsSub (lowerStr (urlString (contactUrl i))) k) = true := by
  rw [List.any_eq_true]
  refine ⟨"contact", by decide, ?_⟩
  have hdata : (lowerStr (urlString (contactUrl i))).data =
      "https://example.org/contact".data ++
        (List.replicate i 'a' ++ ['x']).map Char.toLower := by
    show (urlString (contactUrl i)).data.map Char.toLower = _
    rw [contactUrl_urlString_data, List.map_append,
      show "https://example.org/contact".data.map Char.toLower =
        "https://example.org/contact".data from by decide]
  show containsSubList (lowerStr (urlString (contactUrl i))).data "contact".data = true
  rw [hdata, containsSubList_spec]
  apply infix_append_extend
  rw [← containsSubList_spec]
  decide

theorem manyUrls_cond (u : Url) (h : u ∈ manyUrls) :
    SitemapParser.normalizeUrl u = u ∧ SitemapParser.isSameDomain exBase u = true ∧
      u ∉ ([] : List Url) := by
  obtain ⟨i, _, rfl⟩ := List.mem_map.mp h
  exact ⟨contactUrl_normalize i, contactUrl_sameDomain i, by simp⟩

theorem manyUrls_nodup : manyUrls.Nodup :=
  (List.nodup_range 1001).map contactUrl_inj

theorem manyUrls_length : manyUrls.length = 1001 := by
  simp [manyUrls]

theorem fiftyOneUrls_nodup : fiftyOneUrls.Nodup :=
  (List.nodup_range 51).map contactUrl_inj

theorem fiftyOneUrls_length : fiftyOneUrls.length = 51 := by
  simp [fiftyOneUrls]

end Examples

/-! ### Membership-preservation lemmas for the candidate-set folds -/

theorem mem_setInsert_self {α : Type} [DecidableEq α] (l : List α) (a : α) :
    a ∈ setInsert l a := by
  unfold setInsert
  split
  · assumption
  · exact List.mem_append_right _ (List.mem_singleton.mpr rfl)

theorem mem_foldl_preserve {α β : Type} (step : List α → β → List α)
    (hstep : ∀ acc b, ∀ x ∈ acc, x ∈ step acc b) :
    ∀ (l : List β) (acc : List α), ∀ x ∈ acc, x ∈ l.foldl step acc := by
  intro l
  induction l with
  | nil =>
    intro acc x hx
    exact hx
  | cons b t ih =>
    intro acc x hx
    exact ih (step acc b) x (hstep acc b x hx)

theorem mem_foldl_setInsert_image {α β : Type} [DecidableEq α] (g : β → α) :
    ∀ (l : List β) (acc : List α) (p : β), p ∈ l →
      g p ∈ l.foldl (fun acc x => setInsert acc (g x)) acc := by
  intro l
  induction l with
  | nil =>
    intro acc p hp
    exact absurd hp (List.not_mem_nil p)
  | cons b t ih =>
    intro acc p hp
    rcases List.mem_cons.mp hp with rfl | hp'
    · simp only [List.foldl_cons]
      exact mem_foldl_preserve _ (fun acc b x hx => mem_setInsert_of_mem _ _ _ hx) t _
        (g p) (mem_setInsert_self acc (g p))
    · simp only [List.foldl_cons]
      exact ih _ p hp'

/-! ### Lemmas about `_make_request`, candidate collection and the parse loop -/

namespace AdvancedParser

theorem makeRequest_none (env : Env) (url : Url) (b : Bool) (h : env url = none) :
    makeRequest env url b = none := by
  unfold makeRequest
  rw [h]

theorem makeRequest_some (env : Env) (url : Url) (r : HttpResponse) (h : env url = some r) :
    makeRequest env url true = some r ∧
    makeRequest env url false = (if raisesForStatus r.status = true then none else some r) := by
  unfold makeRequest
  rw [h]
  refine ⟨rfl, ?_⟩
  by_cases hs : raisesForStatus r.status = true
  · simp [hs]
  · simp only [Bool.not_eq_true] at hs
    simp [hs]

theorem collectPriorityUrls_fail (env : Env) (senv : SitemapParser.Env) (fuel : Nat)
    (skipSitemap : Bool) (baseUrl : Url) (domainName : String)
    (h : makeRequest env baseUrl false = none) :
    collectPriorityUrls env senv fuel skipSitemap baseUrl domainName = [baseUrl] := by
  simp only [collectPriorityUrls, h]

theorem mem_collectPriorityUrls_base (env : Env) (senv : SitemapParser.Env) (fuel : Nat)
    (skipSitemap : Bool) (baseUrl : Url) (domainName : String) :
    baseUrl ∈ collectPriorityUrls env senv fuel skipSitemap baseUrl domainName := by
  simp only [collectPriorityUrls]
  rcases hreq : makeRequest env baseUrl false with _ | resp
  · exact List.mem_singleton.mpr rfl
  · dsimp only
    apply mem_foldl_preserve
    · intro acc b x hx
      exact mem_setInsert_of_mem _ _ _ hx
    · have h1 : baseUrl ∈ resp.page.anchors.foldl (fun acc link =>
          if !(isValidUrl domainName link.resolved) then acc
          else
            let linkText := lowerStr link.text
            let linkUrl := lowerStr (urlString link.resolved)
            if Config.ALL_PAGE_KEYWORDS.any
                (fun keyword => containsSub linkUrl keyword || containsSub linkText keyword)
            then setInsert acc (normalizeUrl link.resolved) else acc) [baseUrl] := by
        apply mem_foldl_preserve
        · intro acc b x hx
          dsimp only
          split
          · exact hx
          · split
            · exact mem_setInsert_of_mem _ _ _ hx
            · exact hx
        · exact List.mem_singleton.mpr rfl
      split
      · exact mem_foldl_preserve setInsert
          (fun acc b x hx => mem_setInsert_of_mem _ _ _ hx) _ _ baseUrl h1
      · exact h1

theorem collectPriorityUrls_ne_nil (env : Env) (senv : SitemapParser.Env) (fuel : Nat)
    (skipSitemap : Bool) (baseUrl : Url) (domainName : String) :
    collectPriorityUrls env senv fuel skipSitemap baseUrl domainName ≠ [] :=
  List.ne_nil_of_mem (mem_collectPriorityUrls_base env senv fuel skipSitemap baseUrl domainName)

theorem parse_isSome (env : Env) (senv : SitemapParser.Env) (fuel : Nat)
    (client : Option FormAnalyzer.AiOutcome) (skipSitemap : Bool) (rawBase : Url) :
    (parse env senv fuel client skipSitemap rawBase).isSome = true := by
  simp only [parse]
  have hne := collectPriorityUrls_ne_nil env senv fuel skipSitemap (normalizeUrl rawBase)
    (normalizeUrl rawBase).netloc
  rcases hc : collectPriorityUrls env senv fuel skipSitemap (normalizeUrl rawBase)
      (normalizeUrl rawBase).netloc with _ | ⟨u, t⟩
  · exact absurd hc hne
  · simp

theorem mem_collectPriorityUrls_common (env : Env) (senv : SitemapParser.Env) (fuel : Nat)
    (skipSitemap : Bool) (baseUrl : Url) (domainName : String) (r : HttpResponse)
    (h : makeRequest env baseUrl false = some r) (p : String) (hp : p ∈ Config.COMMON_PATHS) :
    normalizeUrl (urljoinPath baseUrl p) ∈
      collectPriorityUrls env senv fuel skipSitemap baseUrl domainName := by
  simp only [collectPriorityUrls, h]
  exact mem_foldl_setInsert_image (fun path => normalizeUrl (urljoinPath baseUrl path))
    Config.COMMON_PATHS _ p hp

theorem processUrl_skip (env : Env) (client : Option FormAnalyzer.AiOutcome) (st : RunState)
    (url : Url) (h : shouldSkipGroup st.successfulGroups (getUrlKeywordGroup url) = true) :
    processUrl env client st url = st := by
  simp only [processUrl, h, if_true]

theorem processUrl_groups_mono (env : Env) (client : Option FormAnalyzer.AiOutcome)
    (st : RunState) (url : Url) (g : String) (hg : g ∈ st.successfulGroups) :
    g ∈ (processUrl env client st url).successfulGroups := by
  simp only [processUrl]
  split
  · exact hg
  · rcases makeRequest env url true with _ | resp
    · exact hg
    · dsimp only
      split
      · exact hg
      · dsimp only
        split
        · unfold markGroupAsSuccessful
          rcases getUrlKeywordGroup url with _ | g'
          · exact hg
          · exact mem_setInsert_of_mem _ _ _ hg
        · exact hg

theorem visitUrls_groups_mono (env : Env) (client : Option FormAnalyzer.AiOutcome) :
    ∀ (l : List Url) (st : RunState) (g : String), g ∈ st.successfulGroups →
      g ∈ (visitUrls env client st l).successfulGroups := by
  intro l
  induction l with
  | nil =>
    intro st g hg
    exact hg
  | cons u t ih =>
    intro st g hg
    exact ih (processUrl env client st u) g (processUrl_groups_mono env client st u g hg)

theorem visitUrls_append (env : Env) (client : Option FormAnalyzer.AiOutcome)
    (st : RunState) (l1 l2 : List Url) :
    visitUrls env client st (l1 ++ l2) = visitUrls env client (visitUrls env client st l1) l2 := by
  simp [visitUrls, List.foldl_append]

end AdvancedParser

/-! ### Lemmas tracing emails back to their page sources -/

namespace AdvancedParser

theorem mem_mailto_foldl (anchors : List Anchor) :
    ∀ (acc : List String) (e : String), e ∈ anchors.foldl mailtoStep acc →
      e ∈ acc ∨ ∃ a ∈ anchors, startsWith a.href "mailto:" = true ∧
        isValidEmail (mailtoCandidate a.href) = true ∧ e = lowerStr (mailtoCandidate a.href) := by
  induction anchors with
  | nil =>
    intro acc e h
    exact Or.inl h
  | cons a t ih =>
    intro acc e h
    simp only [List.foldl_cons] at h
    rcases ih _ e h with h' | ⟨b, hb, h1, h2, h3⟩
    · unfold mailtoStep at h'
      by_cases hm : startsWith a.href "mailto:" = true
      · rw [if_pos hm] at h'
        by_cases hv : (mailtoCandidate a.href != "" && isValidEmail (mailtoCandidate a.href)) = true
        · rw [if_pos hv] at h'
          have hval : isValidEmail (mailtoCandidate a.href) = true := by
            simp only [Bool.and_eq_true] at hv
            exact hv.2
          rcases mem_of_setInsert _ _ _ h' with h'' | rfl
          · exact Or.inl h''
          · exact Or.inr ⟨a, List.mem_cons_self a t, hm, hval, rfl⟩
        · rw [if_neg hv] at h'
          exact Or.inl h'
      · rw [if_neg hm] at h'
        exact Or.inl h'
    · exact Or.inr ⟨b, List.mem_cons_of_mem a hb, h1, h2, h3⟩

theorem mem_textmatch_foldl (ms : List String) :
    ∀ (acc : List String) (e : String), e ∈ ms.foldl textMatchStep acc →
      e ∈ acc ∨ ∃ m ∈ ms, isValidEmail m = true ∧ e = lowerStr m := by
  induction ms with
  | nil =>
    intro acc e h
    exact Or.inl h
  | cons m t ih =>
    intro acc e h
    simp only [List.foldl_cons] at h
    rcases ih _ e h with h' | ⟨b, hb, h1, h2⟩
    · unfold textMatchStep at h'
      by_cases hv : isValidEmail m = true
      · rw [if_pos hv] at h'
        rcases mem_of_setInsert _ _ _ h' with h'' | rfl
        · exact Or.inl h''
        · exact Or.inr ⟨m, List.mem_cons_self m t, hv, rfl⟩
      · rw [if_neg hv] at h'
        exact Or.inl h'
    · exact Or.inr ⟨b, List.mem_cons_of_mem m hb, h1, h2⟩

/-- How an email can enter the result set from one page. -/
def emailSource (e : String) (page : PageData) : Prop :=
  (∃ a ∈ page.anchors, startsWith a.href "mailto:" = true ∧
    isValidEmail (mailtoCandidate a.href) = true ∧ e = lowerStr (mailtoCandidate a.href)) ∨
  (∃ m ∈ page.textMatches, isValidEmail m = true ∧ e = lowerStr m)

theorem mem_findEmailsList (page : PageData) (acc : List String) (e : String)
    (h : e ∈ findEmailsList page acc) : e ∈ acc ∨ emailSource e page := by
  unfold findEmailsList at h
  rcases mem_textmatch_foldl page.textMatches _ e h with h' | ⟨m, hm, h1, h2⟩
  · rcases mem_mailto_foldl page.anchors acc e h' with h'' | ⟨a, ha, g1, g2, g3⟩
    · exact Or.inl h''
    · exact Or.inr (Or.inl ⟨a, ha, g1, g2, g3⟩)
  · exact Or.inr (Or.inr ⟨m, hm, h1, h2⟩)

theorem makeRequest_ignore (env : Env) (url : Url) : makeRequest env url true = env url := by
  unfold makeRequest
  cases env url <;> simp

theorem mem_processUrl_emails (env : Env) (client : Option FormAnalyzer.AiOutcome)
    (st : RunState) (url : Url) (e : String)
    (h : e ∈ (processUrl env client st url).emails) :
    e ∈ st.emails ∨ ∃ r, env url = some r ∧ emailSource e r.page := by
  simp only [processUrl] at h
  split at h
  · exact Or.inl h
  · rw [makeRequest_ignore] at h
    rcases henv : env url with _ | r
    · rw [henv] at h
      exact Or.inl h
    · rw [henv] at h
      dsimp only at h
      split at h
      · exact Or.inl h
      · rcases mem_findEmailsList _ _ _ h with h' | hsrc
        · exact Or.inl h'
        · exact Or.inr ⟨r, rfl, hsrc⟩

theorem mem_visitUrls_emails (env : Env) (client : Option FormAnalyzer.AiOutcome)
    (urls : List Url) :
    ∀ (st : RunState) (e : String), e ∈ (visitUrls env client st urls).emails →
      e ∈ st.emails ∨ ∃ url ∈ urls, ∃ r, env url = some r ∧ emailSource e r.page := by
  induction urls with
  | nil =>
    intro st e h
    exact Or.inl h
  | cons u t ih =>
    intro st e h
    simp only [visitUrls, List.foldl_cons] at h
    rcases ih (processUrl env client st u) e h with h' | ⟨url, hurl, r, hr, hsrc⟩
    · rcases mem_processUrl_emails env client st u e h' with h'' | ⟨r, hr, hsrc⟩
      · exact Or.inl h''
      · exact Or.inr ⟨u, List.mem_cons_self u t, r, hr, hsrc⟩
    · exact Or.inr ⟨url, List.mem_cons_of_mem u hurl, r, hr, hsrc⟩

end AdvancedParser

namespace FormAnalyzer

/-! ### Lemmas about the form classifier -/

theorem foldl_cond_add_le (k : Int) (hk : 0 ≤ k) (p : String → Bool) (l : List String) :
    ∀ init : Int, init ≤ l.foldl (fun s x => if p x then s + k else s) init := by
  induction l with
  | nil => intro init; simp
  | cons x t ih =>
    intro init
    simp only [List.foldl_cons]
    by_cases h : p x
    · rw [if_pos h]
      have := ih (init + k)
      omega
    · rw [if_neg h]
      exact ih init

theorem attrScore_nonneg (ctx : String) : 0 ≤ attrScore ctx :=
  foldl_cond_add_le 2 (by omega) _ _ 0

theorem surroundScore_nonneg (ctx : String) : 0 ≤ surroundScore ctx :=
  foldl_cond_add_le 3 (by omega) _ _ 0

theorem fieldDelta_nonneg (f : FormField) : 0 ≤ fieldDelta f := by
  unfold fieldDelta
  split_ifs <;> omega

theorem foldl_processField_score (fs : List FormField) :
    ∀ acc : FieldAcc, (fs.foldl processField acc).score = acc.score + (fs.map fieldDelta).sum := by
  induction fs with
  | nil => intro acc; simp
  | cons f t ih =>
    intro acc
    simp only [List.foldl_cons, List.map_cons, List.sum_cons, ih, processField]
    omega

theorem foldl_processField_hasEmail (fs : List FormField) :
    ∀ acc : FieldAcc, (fs.foldl processField acc).hasEmail =
      (acc.hasEmail || fs.any emailFieldHit) := by
  induction fs with
  | nil => intro acc; simp
  | cons f t ih =>
    intro acc
    simp only [List.foldl_cons, List.any_cons, ih, processField, Bool.or_assoc]

theorem foldl_processField_hasMessage (fs : List FormField) :
    ∀ acc : FieldAcc, (fs.foldl processField acc).hasMessage =
      (acc.hasMessage || fs.any messageFieldHit) := by
  induction fs with
  | nil => intro acc; simp
  | cons f t ih =>
    intro acc
    simp only [List.foldl_cons, List.any_cons, ih, processField, Bool.or_assoc]

theorem foldl_processField_hasName (fs : List FormField) :
    ∀ acc : FieldAcc, (fs.foldl processField acc).hasName =
      (acc.hasName || fs.any nameFieldHit) := by
  induction fs with
  | nil => intro acc; simp
  | cons f t ih =>
    intro acc
    simp only [List.foldl_cons, List.any_cons, ih, processField, Bool.or_assoc]

theorem fieldsAcc_score (fs : List FormField) :
    (fieldsAcc fs).score = (fs.map fieldDelta).sum := by
  simp [fieldsAcc, foldl_processField_score]

theorem fieldsAcc_hasEmail (fs : List FormField) :
    (fieldsAcc fs).hasEmail = fs.any emailFieldHit := by
  simp [fieldsAcc, foldl_processField_hasEmail]

theorem fieldsAcc_hasMessage (fs : List FormField) :
    (fieldsAcc fs).hasMessage = fs.any messageFieldHit := by
  simp [fieldsAcc, foldl_processField_hasMessage]

theorem fieldsAcc_hasName (fs : List FormField) :
    (fieldsAcc fs).hasName = fs.any nameFieldHit := by
  simp [fieldsAcc, foldl_processField_hasName]

theorem comboBonus_mono (e m n e2 m2 n2 : Bool) (he : e = true → e2 = true)
    (hm : m = true → m2 = true) (hn : n = true → n2 = true) :
    comboBonus e m n ≤ comboBonus e2 m2 n2 := by
  cases e <;> cases m <;> cases n <;> cases e2 <;> cases m2 <;> cases n2 <;>
    simp_all [comboBonus]

theorem map_fieldDelta_sum_nonneg (fs : List FormField) :
    0 ≤ (fs.map fieldDelta).sum := by
  apply List.sum_nonneg
  intro x hx
  obtain ⟨f, _, rfl⟩ := List.mem_map.mp hx
  exact fieldDelta_nonneg f

theorem fieldDelta_pair_le_sum (fs : List FormField) (f g : FormField) (hf : f ∈ fs)
    (hg : g ∈ fs) (hne : f ≠ g) :
    fieldDelta f + fieldDelta g ≤ (fs.map fieldDelta).sum := by
  obtain ⟨l1, l2, rfl⟩ := List.append_of_mem hf
  have hnn : ∀ (m : List FormField), ∀ x ∈ m.map fieldDelta, 0 ≤ x := by
    intro m x hx
    obtain ⟨a, _, rfl⟩ := List.mem_map.mp hx
    exact fieldDelta_nonneg a
  rcases List.mem_append.mp hg with h1 | h2
  · have : fieldDelta g ≤ (l1.map fieldDelta).sum :=
      List.single_le_sum (hnn l1) (fieldDelta g) (List.mem_map_of_mem fieldDelta h1)
    have h2sum : 0 ≤ (l2.map fieldDelta).sum := map_fieldDelta_sum_nonneg l2
    simp only [List.map_append, List.sum_append, List.map_cons, List.sum_cons]
    omega
  · rcases List.mem_cons.mp h2 with rfl | h3
    · exact absurd rfl hne
    · have : fieldDelta g ≤ (l2.map fieldDelta).sum :=
        List.single_le_sum (hnn l2) (fieldDelta g) (List.mem_map_of_mem fieldDelta h3)
      have h1sum : 0 ≤ (l1.map fieldDelta).sum := map_fieldDelta_sum_nonneg l1
      simp only [List.map_append, List.sum_append, List.map_cons, List.sum_cons]
      omega

theorem finalScore_none (form : Form) : finalScore none form = heuristicScore form := by
  simp [finalScore, aiGuard]

theorem heuristicScore_append_field (form : Form) (fld : FormField) :
    heuristicScore form ≤ heuristicScore { form with fields := form.fields ++ [fld] } := by
  unfold heuristicScore
  simp only [formContext]
  have hs : (fieldsAcc (form.fields ++ [fld])).score =
      (fieldsAcc form.fields).score + fieldDelta fld := by
    simp [fieldsAcc_score, List.map_append, List.sum_append]
  have hcombo : comboBonus (fieldsAcc form.fields).hasEmail (fieldsAcc form.fields).hasMessage
      (fieldsAcc form.fields).hasName ≤
      comboBonus (fieldsAcc (form.fields ++ [fld])).hasEmail
        (fieldsAcc (form.fields ++ [fld])).hasMessage
        (fieldsAcc (form.fields ++ [fld])).hasName := by
    apply comboBonus_mono <;>
      simp_all [fieldsAcc_hasEmail, fieldsAcc_hasMessage, fieldsAcc_hasName, List.any_append]
  have hd := fieldDelta_nonneg fld
  omega

theorem comboBonus_ge_three (n : Bool) : 3 ≤ comboBonus true true n := by
  cases n <;> simp [comboBonus]

theorem fieldDelta_ge_of_email (f : FormField) (h : emailFieldHit f = true) :
    4 ≤ fieldDelta f := by
  simp only [fieldDelta, h, if_true]
  split_ifs <;> omega

theorem fieldDelta_ge_of_message (f : FormField) (h : messageFieldHit f = true) :
    3 ≤ fieldDelta f := by
  simp only [fieldDelta, h, if_true]
  split_ifs <;> omega

theorem heuristicScore_ge_ten (form : Form)
    (he : ∃ f ∈ form.fields, lowerStr f.typeAttr = "email" ∧ f.tag = "input")
    (ht : ∃ g ∈ form.fields, g.tag = "textarea") :
    10 ≤ heuristicScore form := by
  obtain ⟨f, hf, hft, hfi⟩ := he
  obtain ⟨g, hg, hgt⟩ := ht
  have hfe : emailFieldHit f = true := by
    simp [emailFieldHit, Config.INPUT_EMAIL_KEYWORDS, hft]
  have hgm : messageFieldHit g = true := by
    simp [messageFieldHit, Config.INPUT_MESSAGE_KEYWORDS, hgt]
  have hne : f ≠ g := by
    intro hEq
    rw [hEq, hgt] at hfi
    exact absurd hfi (by decide)
  have hsum := fieldDelta_pair_le_sum form.fields f g hf hg hne
  have hdf := fieldDelta_ge_of_email f hfe
  have hdg := fieldDelta_ge_of_message g hgm
  have hE : (fieldsAcc form.fields).hasEmail = true := by
    rw [fieldsAcc_hasEmail]
    exact List.any_eq_true.mpr ⟨f, hf, hfe⟩
  have hM : (fieldsAcc form.fields).hasMessage = true := by
    rw [fieldsAcc_hasMessage]
    exact List.any_eq_true.mpr ⟨g, hg, hgm⟩
  have hA := attrScore_nonneg (formContext form)
  have hS := surroundScore_nonneg (formContext form)
  have hC := comboBonus_ge_three (fieldsAcc form.fields).hasName
  simp only [heuristicScore]
  rw [fieldsAcc_score, hE, hM]
  omega

end FormAnalyzer

/-! ## Claim theorems for the form classifier (C5, C6, C7) -/

/-- C5: when an external scorer is configured, `_is_contact_form` invokes it
exactly once if and only if the running heuristic score lies in the
inclusive range [2, 8]; a verdict in {-2, -1, 0, 1, 2} contributes the delta
of the fixed table {-2: -5, -1: -2, 0: 0, 1: 2, 2: 5}; any failure of the
call (raised error or unparsable reply) contributes 0 and never aborts the
classification; and the form is classified a contact form iff the final
score is at least 5. -/
theorem claim_c5_external_scoring (client : Option FormAnalyzer.AiOutcome)
    (form : FormAnalyzer.Form) (hc : client.isSome = true) :
    (FormAnalyzer.aiCallCount client form = 1 ↔
      (2 ≤ FormAnalyzer.heuristicScore form ∧ FormAnalyzer.heuristicScore form ≤ 8)) ∧
    FormAnalyzer.aiCallCount client form ≤ 1 ∧
    Config.LLM_SCORE_MAP (-2) = -5 ∧ Config.LLM_SCORE_MAP (-1) = -2 ∧
    Config.LLM_SCORE_MAP 0 = 0 ∧ Config.LLM_SCORE_MAP 1 = 2 ∧ Config.LLM_SCORE_MAP 2 = 5 ∧
    (∀ s d, FormAnalyzer.findFirstInt s = some d →
      FormAnalyzer.verifyWithAi (some (.reply s)) = Config.LLM_SCORE_MAP d) ∧
    (∀ s, FormAnalyzer.findFirstInt s = none →
      FormAnalyzer.verifyWithAi (some (.reply s)) = 0) ∧
    FormAnalyzer.verifyWithAi (some .err) = 0 ∧
    (FormAnalyzer.isContactForm client form = true ↔
      Config.CONTACT_FORM_THRESHOLD ≤ FormAnalyzer.finalScore client form) := by
  refine ⟨?_, ?_, by decide, by decide, by decide, by decide, by decide, ?_, ?_, rfl, ?_⟩
  · simp [FormAnalyzer.aiCallCount, FormAnalyzer.aiGuard, hc, Config.ENABLE_AI_VERIFICATION]
  · simp only [FormAnalyzer.aiCallCount]
    split_ifs <;> omega
  · intro s d h
    simp [FormAnalyzer.verifyWithAi, h]
  · intro s h
    simp [FormAnalyzer.verifyWithAi, h]
  · simp [FormAnalyzer.isContactForm, ge_iff_le]

/-- C5 witness: the theorem applied to a configured scorer and the concrete
email-plus-textarea form. -/
theorem claim_c5_external_scoring_witness :
    (some (FormAnalyzer.AiOutcome.reply "2")).isSome = true ∧
    ((FormAnalyzer.aiCallCount (some (.reply "2")) Examples.emailTextareaForm = 1 ↔
      (2 ≤ FormAnalyzer.heuristicScore Examples.emailTextareaForm ∧
        FormAnalyzer.heuristicScore Examples.emailTextareaForm ≤ 8)) ∧
    FormAnalyzer.aiCallCount (some (.reply "2")) Examples.emailTextareaForm ≤ 1 ∧
    Config.LLM_SCORE_MAP (-2) = -5 ∧ Config.LLM_SCORE_MAP (-1) = -2 ∧
    Config.LLM_SCORE_MAP 0 = 0 ∧ Config.LLM_SCORE_MAP 1 = 2 ∧ Config.LLM_SCORE_MAP 2 = 5 ∧
    (∀ s d, FormAnalyzer.findFirstInt s = some d →
      FormAnalyzer.verifyWithAi (some (.reply s)) = Config.LLM_SCORE_MAP d) ∧
    (∀ s, FormAnalyzer.findFirstInt s = none →
      FormAnalyzer.verifyWithAi (some (.reply s)) = 0) ∧
    FormAnalyzer.verifyWithAi (some .err) = 0 ∧
    (FormAnalyzer.isContactForm (some (.reply "2")) Examples.emailTextareaForm = true ↔
      Config.CONTACT_FORM_THRESHOLD ≤
        FormAnalyzer.finalScore (some (.reply "2")) Examples.emailTextareaForm)) :=
  ⟨rfl, claim_c5_external_scoring (some (.reply "2")) Examples.emailTextareaForm rfl⟩

/-- C6 counterexample: the minimal form with an `<input type=email>` and a
`<textarea>` has heuristic score 10, which is outside the inclusive range
[2, 8], so the external scoring call does not fire even though a scorer is
configured — the claim asserts that it does fire. -/
theorem claim_c6_counterexample :
    (∃ f ∈ Examples.emailTextareaForm.fields, lowerStr f.typeAttr = "email" ∧ f.tag = "input") ∧
    (∃ g ∈ Examples.emailTextareaForm.fields, g.tag = "textarea") ∧
    FormAnalyzer.heuristicScore Examples.emailTextareaForm = 10 ∧
    ¬(FormAnalyzer.heuristicScore Examples.emailTextareaForm ≤ 8) ∧
    FormAnalyzer.aiCallCount (some (.reply "2")) Examples.emailTextareaForm = 0 := by
  decide

/-- C6 amended: for every form containing an email input with `type=email`
and a textarea, the heuristic score is at least 7 — in fact at least 10 —
which lies above the inclusive [2, 8] range, so the external scoring call
never fires for such a form; it is classified a contact form by heuristics
alone. -/
theorem claim_c6_amended (form : FormAnalyzer.Form) (client : Option FormAnalyzer.AiOutcome)
    (he : ∃ f ∈ form.fields, lowerStr f.typeAttr = "email" ∧ f.tag = "input")
    (ht : ∃ g ∈ form.fields, g.tag = "textarea") :
    7 ≤ FormAnalyzer.heuristicScore form ∧ 10 ≤ FormAnalyzer.heuristicScore form ∧
    FormAnalyzer.aiCallCount client form = 0 ∧
    FormAnalyzer.isContactForm client form = true := by
  have h10 := FormAnalyzer.heuristicScore_ge_ten form he ht
  have hno : ¬(FormAnalyzer.heuristicScore form ≤ 8) := by omega
  refine ⟨by omega, h10, ?_, ?_⟩
  · simp [FormAnalyzer.aiCallCount, FormAnalyzer.aiGuard, hno]
  · simp [FormAnalyzer.isContactForm, FormAnalyzer.finalScore, FormAnalyzer.aiGuard, hno,
      Config.CONTACT_FORM_THRESHOLD]
    omega

/-- C6 amended witness: the amended theorem applied to the concrete
email-plus-textarea form with a configured scorer. -/
theorem claim_c6_amended_witness :
    ((∃ f ∈ Examples.emailTextareaForm.fields, lowerStr f.typeAttr = "email" ∧ f.tag = "input") ∧
     (∃ g ∈ Examples.emailTextareaForm.fields, g.tag = "textarea")) ∧
    (7 ≤ FormAnalyzer.heuristicScore Examples.emailTextareaForm ∧
     10 ≤ FormAnalyzer.heuristicScore Examples.emailTextareaForm ∧
     FormAnalyzer.aiCallCount (some (.reply "2")) Examples.emailTextareaForm = 0 ∧
     FormAnalyzer.isContactForm (some (.reply "2")) Examples.emailTextareaForm = true) :=
  ⟨⟨by decide, by decide⟩,
    claim_c6_amended Examples.emailTextareaForm (some (.reply "2")) (by decide) (by decide)⟩

/-- C7: the heuristic score is monotonic — appending an email field to a
form that already has a message field never decreases the score, and with
the external scorer disabled the classification decision never flips from
positive to negative. -/
theorem claim_c7_monotonic (form : FormAnalyzer.Form) (fld : FormAnalyzer.FormField)
    (hmsg : (FormAnalyzer.fieldsAcc form.fields).hasMessage = true)
    (hemail : FormAnalyzer.emailFieldHit fld = true) :
    FormAnalyzer.heuristicScore form ≤
      FormAnalyzer.heuristicScore { form with fields := form.fields ++ [fld] } ∧
    (FormAnalyzer.isContactForm none form = true →
      FormAnalyzer.isContactForm none { form with fields := form.fields ++ [fld] } = true) := by
  have hle := FormAnalyzer.heuristicScore_append_field form fld
  refine ⟨hle, ?_⟩
  intro h
  simp only [FormAnalyzer.isContactForm, FormAnalyzer.finalScore_none, ge_iff_le,
    decide_eq_true_eq, Config.CONTACT_FORM_THRESHOLD] at h ⊢
  omega

/-- C7 witness: the theorem applied to a textarea-only form and an email
input field. -/
theorem claim_c7_monotonic_witness :
    ((FormAnalyzer.fieldsAcc Examples.textareaOnlyForm.fields).hasMessage = true ∧
     FormAnalyzer.emailFieldHit Examples.emailInputField = true) ∧
    (FormAnalyzer.heuristicScore Examples.textareaOnlyForm ≤
      FormAnalyzer.heuristicScore
        { Examples.textareaOnlyForm with
            fields := Examples.textareaOnlyForm.fields ++ [Examples.emailInputField] } ∧
    (FormAnalyzer.isContactForm none Examples.textareaOnlyForm = true →
      FormAnalyzer.isContactForm none
        { Examples.textareaOnlyForm with
            fields := Examples.textareaOnlyForm.fields ++ [Examples.emailInputField] } = true)) :=
  ⟨⟨by decide, by decide⟩,
    claim_c7_monotonic Examples.textareaOnlyForm Examples.emailInputField (by decide) (by decide)⟩

/-! ## Claim theorem for the email extractor (C2) -/

/-- C2: every email in the final result set of a visit run is lowercase,
contains an `@` with a `.` after it, contains none of the fixed
false-positive substrings, and originates either from a `mailto:` href
(taken before any `?` query suffix) or from a regex match against the text
of some fetched page. -/
theorem claim_c2_email_invariant (env : AdvancedParser.Env)
    (client : Option FormAnalyzer.AiOutcome) (urls : List Url) (e : String)
    (h : e ∈ (AdvancedParser.visitUrls env client AdvancedParser.initState urls).emails) :
    lowerStr e = e ∧
    containsSub e "@" = true ∧
    containsSub ((pySplit e '@').getD 1 "") "." = true ∧
    (∀ fp ∈ AdvancedParser.FALSE_POSITIVES, containsSub e fp = false) ∧
    ∃ url ∈ urls, ∃ r, env url = some r ∧
      ((∃ a ∈ r.page.anchors, startsWith a.href "mailto:" = true ∧
          e = lowerStr (AdvancedParser.mailtoCandidate a.href)) ∨
       (∃ m ∈ r.page.textMatches, e = lowerStr m)) := by
  rcases AdvancedParser.mem_visitUrls_emails env client urls _ e h with
    h0 | ⟨url, hurl, r, hr, hsrc⟩
  · exact absurd h0 (by simp [AdvancedParser.initState])
  · have main : ∀ cand, AdvancedParser.isValidEmail cand = true → e = lowerStr cand →
        lowerStr e = e ∧ containsSub e "@" = true ∧
        containsSub ((pySplit e '@').getD 1 "") "." = true ∧
        (∀ fp ∈ AdvancedParser.FALSE_POSITIVES, containsSub e fp = false) := by
      intro cand hv he
      have hle : lowerStr e = e := by rw [he, lowerStr_idem]
      have hvl := isValidEmail_lowerStr cand hv
      rw [← he] at hvl
      obtain ⟨h1, h2, h3⟩ := (isValidEmail_iff e).mp hvl
      exact ⟨hle, h1, h2, fun fp hfp => by rw [← hle]; exact h3 fp hfp⟩
    rcases hsrc with ⟨a, ha, hm, hv, he⟩ | ⟨m, hmem, hv, he⟩
    · obtain ⟨g0, g1, g2, g3⟩ := main _ hv he
      exact ⟨g0, g1, g2, g3, url, hurl, r, hr, Or.inl ⟨a, ha, hm, he⟩⟩
    · obtain ⟨g0, g1, g2, g3⟩ := main _ hv he
      exact ⟨g0, g1, g2, g3, url, hurl, r, hr, Or.inr ⟨m, hmem, he⟩⟩

/-- C2 witness: a run over one contact page with a `mailto:` anchor yields
`info@foo.com`, and the theorem applies to it. -/
theorem claim_c2_email_invariant_witness :
    ("info@foo.com" ∈ (AdvancedParser.visitUrls Examples.envContact none
      AdvancedParser.initState [Examples.urlContact]).emails) ∧
    (lowerStr "info@foo.com" = "info@foo.com" ∧
    containsSub "info@foo.com" "@" = true ∧
    containsSub ((pySplit "info@foo.com" '@').getD 1 "") "." = true ∧
    (∀ fp ∈ AdvancedParser.FALSE_POSITIVES, containsSub "info@foo.com" fp = false) ∧
    ∃ url ∈ [Examples.urlContact], ∃ r, Examples.envContact url = some r ∧
      ((∃ a ∈ r.page.anchors, startsWith a.href "mailto:" = true ∧
          "info@foo.com" = lowerStr (AdvancedParser.mailtoCandidate a.href)) ∨
       (∃ m ∈ r.page.textMatches, "info@foo.com" = lowerStr m))) :=
  ⟨by decide, claim_c2_email_invariant Examples.envContact none [Examples.urlContact]
    "info@foo.com" (by decide)⟩

/-! ## Claim theorems for the sitemap resolver (C3, C4) -/

/-- C3 counterexample: one sitemap whose urlset holds 1001 distinct
same-domain keyword URLs makes the resolver return 1001 URLs — more than
1000 — because the `<url><loc>` extraction loop has no per-sitemap bound and
the 1000 check only stops the processing of further sitemaps after the one
that crossed the limit. -/
theorem claim_c3_counterexample :
    1000 < (SitemapParser.getLinksFromSitemap Examples.senvBig 1 Examples.exBase).length := by
  have hfind : SitemapParser.findSitemapUrls Examples.senvBig Examples.exBase =
      [Examples.exSitemapUrl] := by decide
  have hextract : Examples.manyUrls.foldl (SitemapParser.addLocEntry Examples.exBase) [] =
      Examples.manyUrls := by
    rw [SitemapParser.foldl_addLocEntry_eq_append Examples.exBase Examples.manyUrls []
      (fun e he => Examples.manyUrls_cond e he) Examples.manyUrls_nodup]
    simp
  have hresp : Examples.senvBig Examples.exSitemapUrl =
      some ⟨200, 0, some ⟨Examples.manyUrls, []⟩, []⟩ := by
    simp [Examples.senvBig]
  have hparse : SitemapParser.parseSitemap Examples.senvBig Examples.exBase 1
      Examples.exSitemapUrl = Examples.manyUrls := by
    show SitemapParser.parseSitemap Examples.senvBig Examples.exBase (Nat.succ 0)
      Examples.exSitemapUrl = Examples.manyUrls
    rw [SitemapParser.parseSitemap, hresp]
    simp only [SitemapParser.extractUrlsFromXml, hextract]
    rfl
  have hsu : setUnion ([] : List Url) Examples.manyUrls = Examples.manyUrls := by
    rw [setUnion_eq_append Examples.manyUrls [] (by intro x _; simp) Examples.manyUrls_nodup]
    simp
  have htop : SitemapParser.topLoopState Examples.senvBig 1 Examples.exBase =
      (Examples.manyUrls, 1, true) := by
    unfold SitemapParser.topLoopState
    rw [hfind]
    show SitemapParser.topStep _ ([], 0, false) Examples.exSitemapUrl = _
    simp only [SitemapParser.topStep, hparse, hsu]
    rw [Examples.manyUrls_length]
    rfl
  have hkw : SitemapParser.keywordUrls Examples.manyUrls = Examples.manyUrls := by
    unfold SitemapParser.keywordUrls
    rw [SitemapParser.foldl_keywordStep_eq_append Examples.manyUrls [] ?_
      Examples.manyUrls_nodup]
    · simp
    · intro u hu
      obtain ⟨i, _, rfl⟩ := List.mem_map.mp hu
      exact ⟨Examples.contactUrl_keyword i, by simp⟩
  have hpri : SitemapParser.prioritizeUrls Examples.manyUrls = Examples.manyUrls := by
    rw [SitemapParser.prioritizeUrls_keyword_branch Examples.manyUrls
      (by rw [hkw, Examples.manyUrls_length]; omega), hkw]
  have hlinks : SitemapParser.getLinksFromSitemap Examples.senvBig 1 Examples.exBase =
      Examples.manyUrls := by
    unfold SitemapParser.getLinksFromSitemap
    rw [hfind]
    simp only [List.isEmpty_cons, Bool.false_eq_true, if_false]
    rw [htop]
    exact hpri
  rw [hlinks, Examples.manyUrls_length]
  omega

/-- C3 amended: the resolver processes at most 5 top-level sitemaps (its
`processed` counter never exceeds `MAX_SITEMAPS`; nested sitemaps reached
through index files are not counted against this limit), and once the
accumulated total reaches 1000 no further sitemap is started, at top level
or inside an index — but the set returned from a traversal can exceed 1000
URLs, since the per-urlset extraction is unbounded and the 1000 check only
stops subsequent processing. -/
theorem claim_c3_amended (env : SitemapParser.Env) (fuel : Nat) (baseUrl : Url) :
    SitemapParser.processedSitemaps env fuel baseUrl ≤ SitemapParser.MAX_SITEMAPS ∧
    (∀ (parseFn : Url → List Url) (cands : List Url) (acc : List Url × Nat × Bool),
      acc.2.2 = true → cands.foldl (SitemapParser.topStep parseFn) acc = acc) ∧
    (∀ (recurse : Url → List Url) (entries : List Url) (acc : List Url × Bool),
      acc.2 = true → entries.foldl (SitemapParser.sitemapIndexStep recurse) acc = acc) := by
  refine ⟨?_, SitemapParser.foldl_topStep_flagged, SitemapParser.foldl_sitemapIndexStep_flagged⟩
  unfold SitemapParser.processedSitemaps
  split
  · simp [SitemapParser.MAX_SITEMAPS]
  · have hcount := SitemapParser.foldl_topStep_count
      (SitemapParser.parseSitemap env baseUrl fuel)
      ((SitemapParser.findSitemapUrls env baseUrl).take SitemapParser.MAX_SITEMAPS)
      ([], 0, false)
    have hlen := List.length_take_le SitemapParser.MAX_SITEMAPS
      (SitemapParser.findSitemapUrls env baseUrl)
    unfold SitemapParser.topLoopState
    simp only at hcount
    omega

/-- C4 counterexample: 51 distinct keyword URLs make `_prioritize_urls`
return all 51 of them — the 50-URL cap only applies on the backfill branch,
not when 20 or more keyword URLs exist. -/
theorem claim_c4_counterexample :
    50 < (SitemapParser.prioritizeUrls Examples.fiftyOneUrls).length := by
  have hkw : SitemapParser.keywordUrls Examples.fiftyOneUrls = Examples.fiftyOneUrls := by
    unfold SitemapParser.keywordUrls
    rw [SitemapParser.foldl_keywordStep_eq_append Examples.fiftyOneUrls [] ?_
      Examples.fiftyOneUrls_nodup]
    · simp
    · intro u hu
      obtain ⟨i, _, rfl⟩ := List.mem_map.mp hu
      exact ⟨Examples.contactUrl_keyword i, by simp⟩
  have hpri : SitemapParser.prioritizeUrls Examples.fiftyOneUrls = Examples.fiftyOneUrls := by
    rw [SitemapParser.prioritizeUrls_keyword_branch Examples.fiftyOneUrls
      (by rw [hkw, Examples.fiftyOneUrls_length]; omega), hkw]
  rw [hpri, Examples.fiftyOneUrls_length]
  omega

/-- C4 amended: the prioritization step keeps exactly the URLs whose
lowercased form contains a configured keyword whenever at least 20 such URLs
exist (with no cap at all on that branch); only when fewer than 20 exist
does it backfill from the remaining URLs in ascending path length, and on
that branch the returned set never exceeds 50 URLs and still contains every
keyword URL. -/
theorem claim_c4_amended (urls : List Url) :
    (20 ≤ (SitemapParser.keywordUrls urls).length →
      SitemapParser.prioritizeUrls urls = SitemapParser.keywordUrls urls) ∧
    ((SitemapParser.keywordUrls urls).length < 20 → urls.isEmpty = false →
      (SitemapParser.prioritizeUrls urls).length ≤ 50 ∧
      ∀ u ∈ SitemapParser.keywordUrls urls, u ∈ SitemapParser.prioritizeUrls urls) := by
  constructor
  · exact SitemapParser.prioritizeUrls_keyword_branch urls
  · intro h20 hne
    have hd : (decide (20 ≤ (SitemapParser.keywordUrls urls).length)) = false := by
      simp
      omega
    simp only [SitemapParser.prioritizeUrls, hne, Bool.false_eq_true, if_false, hd]
    constructor
    · apply SitemapParser.foldl_backfillStep_length
      · intro hflag
        simp at hflag
      · intro _
        simpa using Nat.lt_of_lt_of_le h20 (by omega)
    · intro u hu
      exact SitemapParser.foldl_backfillStep_mem u _ _ hu

/-! ## Claim theorems for the orchestrator (C1, C8, C9, C10) -/

/-- C1 counterexample: with every request failing — as a homepage answering
500 does once the retry adapter gives up — `parse` does not fail: it returns
a result dictionary (empty lists, not `None`), and the base URL itself is
still visited as a candidate, both contrary to the claim that the whole
parse fails with no candidate URLs visited. -/
theorem claim_c1_counterexample :
    AdvancedParser.makeRequest Examples.envFail Examples.exBase false = none ∧
    AdvancedParser.parse Examples.envFail Examples.senvFail 1 none false Examples.exBase =
      some ([], []) ∧
    (AdvancedParser.parseRun Examples.envFail Examples.senvFail 1 none false
      Examples.exBase).fetched = [Examples.exBase] := by
  decide

/-- C1 amended: if the homepage fetch fails, `parse` does not fail and no
partial results are lost to a fatal condition — instead the candidate set
collapses to exactly the normalized base URL (no homepage links, sitemap
links or common paths are added) and `parse` still returns a (possibly
empty) result dictionary; `parse` has no fatal condition at all. -/
theorem claim_c1_amended (env : AdvancedParser.Env) (senv : SitemapParser.Env) (fuel : Nat)
    (client : Option FormAnalyzer.AiOutcome) (skipSitemap : Bool) (rawBase : Url)
    (h : AdvancedParser.makeRequest env (AdvancedParser.normalizeUrl rawBase) false = none) :
    AdvancedParser.collectPriorityUrls env senv fuel skipSitemap
      (AdvancedParser.normalizeUrl rawBase) (AdvancedParser.normalizeUrl rawBase).netloc =
      [AdvancedParser.normalizeUrl rawBase] ∧
    (AdvancedParser.parse env senv fuel client skipSitemap rawBase).isSome = true :=
  ⟨AdvancedParser.collectPriorityUrls_fail env senv fuel skipSitemap _ _ h,
    AdvancedParser.parse_isSome env senv fuel client skipSitemap rawBase⟩

/-- C1 amended witness: the amended theorem applied to the all-failing
oracle. -/
theorem claim_c1_amended_witness :
    AdvancedParser.makeRequest Examples.envFail
      (AdvancedParser.normalizeUrl Examples.exBase) false = none ∧
    (AdvancedParser.collectPriorityUrls Examples.envFail Examples.senvFail 1 false
      (AdvancedParser.normalizeUrl Examples.exBase)
      (AdvancedParser.normalizeUrl Examples.exBase).netloc =
      [AdvancedParser.normalizeUrl Examples.exBase] ∧
    (AdvancedParser.parse Examples.envFail Examples.senvFail 1 none false
      Examples.exBase).isSome = true) :=
  ⟨by decide, claim_c1_amended Examples.envFail Examples.senvFail 1 none false
    Examples.exBase (by decide)⟩

/-- C8: once a keyword group has been marked successful, a later candidate
URL of the same group is skipped entirely — the run state (and in particular
the list of fetched URLs) does not change at that step, so no network
request is made for it. -/
theorem claim_c8_group_skip (env : AdvancedParser.Env)
    (client : Option FormAnalyzer.AiOutcome) (st : AdvancedParser.RunState)
    (us : List Url) (i j : Nat) (g : String) (hij : i ≤ j) (hj : j < us.length)
    (hg : g ∈ (AdvancedParser.visitUrls env client st (us.take i)).successfulGroups)
    (hgroup : AdvancedParser.getUrlKeywordGroup us[j] = some g) :
    AdvancedParser.visitUrls env client st (us.take (j + 1)) =
      AdvancedParser.visitUrls env client st (us.take j) ∧
    (AdvancedParser.visitUrls env client st (us.take (j + 1))).fetched =
      (AdvancedParser.visitUrls env client st (us.take j)).fetched := by
  have hsplit : us.take (j + 1) = us.take j ++ [us[j]] := by
    rw [List.take_succ, List.getElem?_eq_getElem hj]
    rfl
  have hgj : g ∈ (AdvancedParser.visitUrls env client st (us.take j)).successfulGroups := by
    rw [show j = i + (j - i) from by omega, List.take_add,
      AdvancedParser.visitUrls_append]
    exact AdvancedParser.visitUrls_groups_mono env client _ _ g hg
  have hskip : AdvancedParser.shouldSkipGroup
      (AdvancedParser.visitUrls env client st (us.take j)).successfulGroups
      (AdvancedParser.getUrlKeywordGroup us[j]) = true := by
    rw [hgroup]
    simp [AdvancedParser.shouldSkipGroup, hgj]
  have heq : AdvancedParser.visitUrls env client st (us.take (j + 1)) =
      AdvancedParser.visitUrls env client st (us.take j) := by
    rw [hsplit, AdvancedParser.visitUrls_append]
    show AdvancedParser.processUrl env client _ us[j] = _
    exact AdvancedParser.processUrl_skip env client _ us[j] hskip
  exact ⟨heq, by rw [heq]⟩

/-- C8 witness: two `contact`-group URLs; the first yields an email and
marks the group, the second is skipped without a request. -/
theorem claim_c8_group_skip_witness :
    ((1 : Nat) ≤ 1 ∧ 1 < [Examples.urlContact, Examples.urlContacts].length ∧
     "contact" ∈ (AdvancedParser.visitUrls Examples.envContact none AdvancedParser.initState
       ([Examples.urlContact, Examples.urlContacts].take 1)).successfulGroups ∧
     AdvancedParser.getUrlKeywordGroup [Examples.urlContact, Examples.urlContacts][1] =
       some "contact") ∧
    (AdvancedParser.visitUrls Examples.envContact none AdvancedParser.initState
      ([Examples.urlContact, Examples.urlContacts].take 2) =
      AdvancedParser.visitUrls Examples.envContact none AdvancedParser.initState
        ([Examples.urlContact, Examples.urlContacts].take 1) ∧
    (AdvancedParser.visitUrls Examples.envContact none AdvancedParser.initState
      ([Examples.urlContact, Examples.urlContacts].take 2)).fetched =
      (AdvancedParser.visitUrls Examples.envContact none AdvancedParser.initState
        ([Examples.urlContact, Examples.urlContacts].take 1)).fetched) :=
  ⟨⟨by decide, by decide, by decide, by decide⟩,
    claim_c8_group_skip Examples.envContact none AdvancedParser.initState
      [Examples.urlContact, Examples.urlContacts] 1 1 "contact"
      (by decide) (by decide) (by decide) (by decide)⟩

/-- C9 counterexample: a 404 response with `ignoreErrors = true` is returned
as the response object itself, not as null — and with `ignoreErrors = false`
the raised error is caught internally and null is returned, so nothing is
signalled to the caller either. -/
theorem claim_c9_counterexample :
    Examples.env404 Examples.exBase = some ⟨404, Examples.emptyPage⟩ ∧
    AdvancedParser.makeRequest Examples.env404 Examples.exBase true =
      some ⟨404, Examples.emptyPage⟩ ∧
    AdvancedParser.makeRequest Examples.env404 Examples.exBase true ≠ none ∧
    AdvancedParser.makeRequest Examples.env404 Examples.exBase false = none := by
  decide

/-- C9 amended: `_make_request` never lets an error propagate.  With
`ignoreErrors = true` it returns the response object whatever its status
(including non-2xx); with `ignoreErrors = false` a 4xx/5xx response makes
`raise_for_status` raise, the exception is caught and logged, and null is
returned, while other statuses return the response; a connection-level
failure returns null in both modes. -/
theorem claim_c9_amended (env : AdvancedParser.Env) (url : Url) (r : AdvancedParser.HttpResponse)
    (h : env url = some r) :
    AdvancedParser.makeRequest env url true = some r ∧
    AdvancedParser.makeRequest env url false =
      (if AdvancedParser.raisesForStatus r.status = true then none else some r) ∧
    (∀ (env2 : AdvancedParser.Env) (url2 : Url), env2 url2 = none →
      AdvancedParser.makeRequest env2 url2 true = none ∧
      AdvancedParser.makeRequest env2 url2 false = none) :=
  ⟨(AdvancedParser.makeRequest_some env url r h).1,
   (AdvancedParser.makeRequest_some env url r h).2,
   fun env2 url2 h2 =>
    ⟨AdvancedParser.makeRequest_none env2 url2 true h2,
     AdvancedParser.makeRequest_none env2 url2 false h2⟩⟩

/-- C9 amended witness: the amended theorem applied to the 404 oracle. -/
theorem claim_c9_amended_witness :
    Examples.env404 Examples.exBase = some ⟨404, Examples.emptyPage⟩ ∧
    (AdvancedParser.makeRequest Examples.env404 Examples.exBase true =
      some ⟨404, Examples.emptyPage⟩ ∧
    AdvancedParser.makeRequest Examples.env404 Examples.exBase false =
      (if AdvancedParser.raisesForStatus (404 : Nat) = true then none
       else some ⟨404, Examples.emptyPage⟩) ∧
    (∀ (env2 : AdvancedParser.Env) (url2 : Url), env2 url2 = none →
      AdvancedParser.makeRequest env2 url2 true = none ∧
      AdvancedParser.makeRequest env2 url2 false = none)) :=
  ⟨by decide, claim_c9_amended Examples.env404 Examples.exBase ⟨404, Examples.emptyPage⟩
    (by decide)⟩

/-- C10 counterexample: when the homepage fetch fails, the candidate set is
only the base URL — the common path `/contact` is not in it, contrary to the
claim that the common paths are present regardless of the homepage fetch. -/
theorem claim_c10_counterexample :
    AdvancedParser.normalizeUrl (urljoinPath Examples.exBase "/contact") ∉
      AdvancedParser.collectPriorityUrls Examples.envFail Examples.senvFail 1 false
        Examples.exBase "example.org" ∧
    "/contact" ∈ Config.COMMON_PATHS ∧
    AdvancedParser.makeRequest Examples.envFail Examples.exBase false = none := by
  decide

/-- C10 amended: the candidate URL set always contains the normalized base
URL, so it is never empty, the empty-candidate-set branch returning `None`
is unreachable and `parse` always returns a (possibly empty) result
dictionary; the common paths are guaranteed to be in the candidate set only
when the homepage fetch succeeds. -/
theorem claim_c10_amended (env : AdvancedParser.Env) (senv : SitemapParser.Env) (fuel : Nat)
    (client : Option FormAnalyzer.AiOutcome) (skipSitemap : Bool) (rawBase : Url) :
    AdvancedParser.normalizeUrl rawBase ∈ AdvancedParser.collectPriorityUrls env senv fuel
      skipSitemap (AdvancedParser.normalizeUrl rawBase)
      (AdvancedParser.normalizeUrl rawBase).netloc ∧
    AdvancedParser.collectPriorityUrls env senv fuel skipSitemap
      (AdvancedParser.normalizeUrl rawBase) (AdvancedParser.normalizeUrl rawBase).netloc ≠ [] ∧
    (AdvancedParser.parse env senv fuel client skipSitemap rawBase).isSome = true ∧
    (∀ r, AdvancedParser.makeRequest env (AdvancedParser.normalizeUrl rawBase) false = some r →
      ∀ p ∈ Config.COMMON_PATHS,
        AdvancedParser.normalizeUrl (urljoinPath (AdvancedParser.normalizeUrl rawBase) p) ∈
          AdvancedParser.collectPriorityUrls env senv fuel skipSitemap
            (AdvancedParser.normalizeUrl rawBase) (AdvancedParser.normalizeUrl rawBase).netloc) :=
  ⟨AdvancedParser.mem_collectPriorityUrls_base env senv fuel skipSitemap _ _,
   AdvancedParser.collectPriorityUrls_ne_nil env senv fuel skipSitemap _ _,
   AdvancedParser.parse_isSome env senv fuel client skipSitemap rawBase,
   fun r hr p hp =>
    AdvancedParser.mem_collectPriorityUrls_common env senv fuel skipSitemap _ _ r hr p hp⟩

end WebCrawler
